import Mathlib

/-!
Verification of the `bangumi-grillmaster` pipeline core against its
natural-language specification.

Modelling conventions of the shallow embedding:
* JavaScript strings are modelled as `List Char`.
* JavaScript numbers are modelled as `Rat` (exact arithmetic) where fractions
  occur, `Int` for millisecond timestamps and percentages, `Nat` for counters.
* `Date.now()` is an explicit parameter `t`; `crypto.randomUUID()` values are
  explicit `Nat` parameters; `Math.random()` is an explicit stream of rationals.
* The SQLite store is a record of lists of rows, one list per table.  Rows are
  modelled with the columns the verified operations read or write; the internal
  `id` primary-key column is not modelled, row identity is by the unique keys
  (`taskId`, `(taskId, step)`, `projectId`) that the schema enforces, so the
  source's "select one row, then update by primary key" is rendered as a
  `List.map` guarded by that unique key.
* `drizzle-orm`'s `.set({...})` omits every field whose value is `undefined`
  (an explicit `null` is required to clear a column); optional inputs are
  `Option` values and an absent (`none`) input therefore leaves the stored
  column unchanged.  This is modelled by `keepOld`.
-/

namespace Grill

/-! ### `src/server/pipeline/subtitle.ts` - `srtToVtt`

The source is

  `srt.replaceAll("\r\n", "\n").replaceAll(/(\d{2}:\d{2}:\d{2}),(\d{3})/g, "$1.$2")`

prefixed with `"WEBVTT\n\n"`.  `replaceAll` on a string pattern replaces
leftmost non-overlapping occurrences; the global regex replace scans left to
right, and the pattern is fixed-width (twelve characters). -/

/-- Character class at position `i` (0-based) of the timestamp pattern
`\d{2}:\d{2}:\d{2},\d{3}`: colons at positions 2 and 5, the comma at
position 8, a decimal digit (JS `\d` = `[0-9]`) everywhere else. -/
def tsClass (i : Nat) (c : Char) : Bool :=
  if i = 2 ∨ i = 5 then c == ':'
  else if i = 8 then c == ','
  else c.isDigit

/-- Does the twelve-character window `w` match the timestamp pattern? -/
def tsShape (w : List Char) : Bool :=
  w.length == 12 && (List.range 12).all (fun i => tsClass i (w.getD i ' '))

/-- The replacement `"$1.$2"` for a matched window: group 1 is the first eight
characters, the comma at position 8 becomes a dot, group 2 is the last three. -/
def tsRewrite (w : List Char) : List Char :=
  w.take 8 ++ '.' :: w.drop 9

/-- `replaceAll("\r\n", "\n")`: leftmost non-overlapping replacement. -/
def replaceAllCRLF : List Char → List Char
  | [] => []
  | [c] => [c]
  | c1 :: c2 :: rest =>
    if c1 = '\r' ∧ c2 = '\n' then '\n' :: replaceAllCRLF rest
    else c1 :: replaceAllCRLF (c2 :: rest)

/-- Global regex replace of `(\d{2}:\d{2}:\d{2}),(\d{3})` by `"$1.$2"`:
scan left to right, rewrite each match and continue after it. -/
def rewriteTimestamps (l : List Char) : List Char :=
  match l with
  | [] => []
  | c :: rest =>
    if tsShape ((c :: rest).take 12) then
      tsRewrite ((c :: rest).take 12) ++ rewriteTimestamps ((c :: rest).drop 12)
    else c :: rewriteTimestamps rest
termination_by l.length
decreasing_by
  all_goals simp only [List.length_drop, List.length_cons]
  all_goals omega

/-- `srtToVtt` from `src/server/pipeline/subtitle.ts`. -/
def srtToVtt (srt : List Char) : List Char :=
  "WEBVTT\n\n".data ++ rewriteTimestamps (replaceAllCRLF srt)

/-- The specification's normalisation, written as one pass over the input:
every `"\r\n"` becomes `"\n"`, every timestamp `HH:MM:SS,mmm` becomes
`HH:MM:SS.mmm`, and every other character is copied verbatim. -/
def specNormalize (l : List Char) : List Char :=
  match l with
  | [] => []
  | [c] => [c]
  | c1 :: c2 :: rest =>
    if c1 = '\r' ∧ c2 = '\n' then '\n' :: specNormalize rest
    else if tsShape ((c1 :: c2 :: rest).take 12) then
      tsRewrite ((c1 :: c2 :: rest).take 12) ++ specNormalize ((c1 :: c2 :: rest).drop 12)
    else c1 :: specNormalize (c2 :: rest)
termination_by l.length
decreasing_by
  all_goals simp only [List.length_drop, List.length_cons]
  all_goals omega

/-- Length of the longest prefix that contains no `"\r\n"` pair. -/
def crlfFreePrefixLen : List Char → Nat
  | [] => 0
  | [_] => 1
  | c1 :: c2 :: rest =>
    if c1 = '\r' ∧ c2 = '\n' then 0 else crlfFreePrefixLen (c2 :: rest) + 1

/-! ### `src/server/core/retry.ts` - `retryBackoff`

`Math.random()` results are passed in as the stream `rand`; attempt `n` uses
`rand n`.  The factory is modelled as the outcome of its `n`-th invocation. -/

/-- `PipelineError` from `src/server/core/errors.ts`. -/
structure PipelineError where
  step : String
  message : String
  retryable : Bool
deriving DecidableEq, Repr

/-- `RetryOptions` from `src/server/core/retry.ts`; absent optional fields are
`none`. -/
structure RetryOptions where
  baseDelayMs : ℚ
  jitter : Option Bool
  maxDelayMs : Option ℚ
  maxRetries : Nat
deriving DecidableEq, Repr

/-- `Number.MAX_SAFE_INTEGER`. -/
def maxSafeInteger : ℚ := 9007199254740991

/-- `withJitter(delay) = delay * (0.75 + Math.random() * 0.5)`. -/
def withJitter (rand delay : ℚ) : ℚ :=
  delay * (3 / 4 + rand * (1 / 2))

/-- The delay computed before the retry that follows the failure of attempt
`attempt` (0-indexed), as the source computes it. -/
def retryDelayMs (o : RetryOptions) (rand : ℚ) (attempt : Nat) : ℤ :=
  let rawDelay : ℚ := min (o.baseDelayMs * 2 ^ attempt) (o.maxDelayMs.getD maxSafeInteger)
  max 1 (Int.floor (if o.jitter = some false then rawDelay else withJitter rand rawDelay))

/-- `retryBackoff`'s inner `run(attempt)`: the result together with the list of
delays slept before each re-invocation. -/
def retryBackoff {α : Type} (factory : Nat → Except PipelineError α) (o : RetryOptions)
    (rand : Nat → ℚ) (attempt : Nat) : Except PipelineError α × List ℤ :=
  match factory attempt with
  | .ok v => (.ok v, [])
  | .error e =>
    if h : e.retryable = false ∨ o.maxRetries ≤ attempt then (.error e, [])
    else
      let rest := retryBackoff factory o rand (attempt + 1)
      (rest.1, retryDelayMs o (rand attempt) attempt :: rest.2)
termination_by o.maxRetries + 1 - attempt
decreasing_by
  simp at h
  omega

/-- `retryBackoff(factory, options)` starts at attempt 0. -/
def retryBackoffRun {α : Type} (factory : Nat → Except PipelineError α) (o : RetryOptions)
    (rand : Nat → ℚ) : Except PipelineError α × List ℤ :=
  retryBackoff factory o rand 0

/-- Does the loop stop at attempt `n` (success, non-retryable error, or retry
budget exhausted)? -/
def stopsAt {α : Type} (factory : Nat → Except PipelineError α) (o : RetryOptions)
    (n : Nat) : Bool :=
  match factory n with
  | .ok _ => true
  | .error e => !e.retryable || decide (o.maxRetries ≤ n)

/-- Walk attempts upward until `stopsAt`, with explicit fuel. -/
def specStopGo {α : Type} (factory : Nat → Except PipelineError α) (o : RetryOptions) :
    Nat → Nat → Nat
  | 0, n => n
  | fuel + 1, n => if stopsAt factory o n then n else specStopGo factory o fuel (n + 1)

/-- The first attempt index at which the loop stops (it always stops by
attempt `maxRetries`). -/
def specStop {α : Type} (factory : Nat → Except PipelineError α) (o : RetryOptions) : Nat :=
  specStopGo factory o (o.maxRetries + 1) 0

/-- The specification's delay before the retry with 0-indexed retry number
`n`: `min(baseDelayMs * 2 ^ n, maxDelayMs ?? Number.MAX_SAFE_INTEGER)`,
multiplied by the jitter factor `0.75 + rand/2 ∈ [0.75, 1.25)` unless jitter
is disabled, floored, at least 1 ms. -/
def specDelay (o : RetryOptions) (rand : Nat → ℚ) (n : Nat) : ℤ :=
  max 1 (Int.floor (if o.jitter = some false
    then min (o.baseDelayMs * 2 ^ n) (o.maxDelayMs.getD maxSafeInteger)
    else min (o.baseDelayMs * 2 ^ n) (o.maxDelayMs.getD maxSafeInteger)
      * (3 / 4 + rand n * (1 / 2))))

/-- Modelled from the claim's words, not from the source: the delay formula
with `maxDelayMs or +infinity`, i.e. no cap at all when `maxDelayMs` is
absent (the source caps at `Number.MAX_SAFE_INTEGER`). -/
def claimDelay (o : RetryOptions) (rand : Nat → ℚ) (n : Nat) : ℤ :=
  let raw : ℚ :=
    match o.maxDelayMs with
    | some m => min (o.baseDelayMs * 2 ^ n) m
    | none => o.baseDelayMs * 2 ^ n
  max 1 (Int.floor (if o.jitter = some false then raw
    else raw * (3 / 4 + rand n * (1 / 2))))

/-! ### `src/server/services/parse-source.ts` - the source parser

The four regexes carry the `i` flag, so character comparisons against the
literal parts of the patterns go through ASCII lowercasing (`lowerOf`); this
coincides with ECMAScript canonicalisation on the character sets involved.
`String.prototype.match` returns the leftmost match, which for these patterns
is the first position at which the whole (fixed-width or greedy) pattern
succeeds. -/

def lowerChars : List Char := "abcdefghijklmnopqrstuvwxyz".data

def upperChars : List Char := "ABCDEFGHIJKLMNOPQRSTUVWXYZ".data

def digitChars : List Char := "0123456789".data

/-- Finite table lookup: the image of `c` under the pairing of `as` with `bs`,
`c` itself when `c` is not listed. -/
def mapVia : List Char → List Char → Char → Char
  | a :: as, b :: bs, c => if c = a then b else mapVia as bs c
  | _, _, c => c

/-- ASCII lowercasing (the effect of `toLowerCase` on the characters this
parser can meet). -/
def lowerOf (c : Char) : Char := mapVia upperChars lowerChars c

/-- ASCII uppercasing (the effect of `toUpperCase` on the characters this
parser can meet). -/
def upperOf (c : Char) : Char := mapVia lowerChars upperChars c

/-- `[0-9A-Za-z]`. -/
def isAlnumChar (c : Char) : Bool :=
  digitChars.contains c || upperChars.contains c || lowerChars.contains c

/-- `\w` = `[A-Za-z0-9_]`. -/
def isWordChar (c : Char) : Bool := isAlnumChar c || c == '_'

/-- `[A-Za-z0-9_-]`. -/
def isYtIdChar (c : Char) : Bool := isAlnumChar c || c == '_' || c == '-'

/-- The characters removed by `String.prototype.trim` (WhiteSpace and
LineTerminator code points). -/
def jsWhitespace : List Char :=
  ['\t', '\n', '\x0B', '\x0C', '\x0D', ' ', ' ', '﻿', ' ',
   ' ', ' ', ' ', ' ', ' ', ' ', ' ',
   ' ', ' ', ' ', ' ', ' ', ' ', ' ',
   ' ', '　']

def isJsWs (c : Char) : Bool := jsWhitespace.contains c

/-- `input.trim()`. -/
def trimChars (l : List Char) : List Char :=
  ((l.dropWhile isJsWs).reverse.dropWhile isJsWs).reverse

/-- Case-insensitive test that `l` starts with the literal `pat`. -/
def ciHasLit (pat l : List Char) : Bool :=
  decide ((l.take pat.length).map lowerOf = pat)

/-- Certificate that, whatever is appended after `l`, `l ++ s` cannot start
with the literal `pat` case-insensitively: some already-known character of `l`
mismatches. -/
def ciMismatch : List Char → List Char → Bool
  | [], _ => false
  | _ :: _, [] => false
  | p :: ps, c :: cs => if lowerOf c = p then ciMismatch ps cs else true

/-- Try `/(?:BV[0-9A-Za-z]{10})/i` at the head of `l`; on success return the
matched text (`match[0]`, twelve characters). -/
def bvMatchAt (l : List Char) : Option (List Char) :=
  if ciHasLit ['b', 'v'] l ∧ 10 ≤ (l.drop 2).length ∧ ((l.drop 2).take 10).all isAlnumChar
  then some (l.take 12) else none

/-- Try `/(?:episodes\/(\w+))/i` at the head of `l`; on success return capture
group 1 (the maximal `\w+` run, at least one character). -/
def tverMatchAt (l : List Char) : Option (List Char) :=
  if ciHasLit "episodes/".data l then
    match (l.drop 9).takeWhile isWordChar with
    | [] => none
    | c :: cs => some (c :: cs)
  else none

/-- Try `/(?:v=|youtu\.be\/)([A-Za-z0-9_-]{11})/i` at the head of `l`; on
success return capture group 1 (exactly eleven characters). -/
def ytMatchAt (l : List Char) : Option (List Char) :=
  if ciHasLit ['v', '='] l ∧ 11 ≤ (l.drop 2).length ∧ ((l.drop 2).take 11).all isYtIdChar
  then some ((l.drop 2).take 11)
  else if ciHasLit "youtu.be/".data l ∧ 11 ≤ (l.drop 9).length
      ∧ ((l.drop 9).take 11).all isYtIdChar
  then some ((l.drop 9).take 11)
  else none

/-- Leftmost-match search: try the matcher at every position, left to right. -/
def scanFirst (matchAt : List Char → Option (List Char)) : List Char → Option (List Char)
  | [] => none
  | c :: rest =>
    match matchAt (c :: rest) with
    | some m => some m
    | none => scanFirst matchAt rest

def findBV (l : List Char) : Option (List Char) := scanFirst bvMatchAt l

def findTver (l : List Char) : Option (List Char) := scanFirst tverMatchAt l

def findYt (l : List Char) : Option (List Char) := scanFirst ytMatchAt l

/-- `RAW_VIDEO_ID_REGEX = /^[A-Za-z0-9_-]{6,30}$/` (anchored). -/
def rawIdTest (l : List Char) : Bool :=
  decide (6 ≤ l.length) && decide (l.length ≤ 30) && l.all isYtIdChar

/-- `Source` (`z.enum(["bilibili", "tver", "youtube", "unknown"])`). -/
inductive Source where
  | bilibili
  | tver
  | youtube
  | unknown
deriving DecidableEq, Repr

/-- `extractByPattern` from `src/server/services/parse-source.ts`: trim, then
try the bilibili, tver, youtube and raw-id patterns in order.  The bilibili
video id is the upper-cased whole match. -/
def extractByPattern (input : List Char) : Option (Source × List Char) :=
  let trimmed := trimChars input
  match findBV trimmed with
  | some m => some (Source.bilibili, m.map upperOf)
  | none =>
    match findTver trimmed with
    | some cap => some (Source.tver, cap)
    | none =>
      match findYt trimmed with
      | some cap => some (Source.youtube, cap)
      | none =>
        if rawIdTest trimmed then some (Source.unknown, trimmed) else none

/-- `parseSourceInput`: wrap `extractByPattern` in a `Result`
(`SourceSchema.parse` is the identity on the values `extractByPattern`
produces). -/
def parseSourceInput (input : List Char) :
    Except String (Source × List Char) :=
  match extractByPattern input with
  | some p => .ok p
  | none => .error "無法辨識來源，請提供有效的影片 URL 或 videoId"

def startsWithLit (pat l : List Char) : Bool := l.take pat.length == pat

/-- `normalizeSourceUrl` from the pipeline runner: a verbatim http(s) input,
else the canonical bilibili / youtube URL, else the original input. -/
def normalizeSourceUrl (source : Source) (sourceVideoId originalInput : List Char) :
    List Char :=
  if startsWithLit "http://".data originalInput ∨ startsWithLit "https://".data originalInput
  then originalInput
  else if source = Source.bilibili then
    "https://www.bilibili.com/video/".data ++ sourceVideoId
  else if source = Source.youtube then
    "https://www.youtube.com/watch?v=".data ++ sourceVideoId
  else originalInput

/-- Every position of `l` carries a `ciMismatch` certificate against both
`"BV"` and nothing else: the bilibili pattern cannot start inside `l`,
whatever follows `l`. -/
def bvSafe : List Char → Bool
  | [] => true
  | c :: rest => ciMismatch ['b', 'v'] (c :: rest) && bvSafe rest

/-- No position of `l` can start an `"episodes/"` literal, whatever follows. -/
def tverSafe : List Char → Bool
  | [] => true
  | c :: rest => ciMismatch "episodes/".data (c :: rest) && tverSafe rest

/-- No position of `l` can start a `"v="` or `"youtu.be/"` literal, whatever
follows. -/
def ytSafe : List Char → Bool
  | [] => true
  | c :: rest =>
    (ciMismatch ['v', '='] (c :: rest) && ciMismatch "youtu.be/".data (c :: rest)) && ytSafe rest

/-! ### `src/server/db/repository.ts` - the store

Rows mirror the drizzle schema (`src/server/db/schema.ts`).  The
`watch_progress` table and the operations the claims do not touch
(`listProjects`, `getProjectById`, `deleteProject`, ...) are not modelled.
The internal `id` primary key is not modelled; see the header comment. -/

/-- A `projects` row. -/
structure ProjectRow where
  projectId : Nat
  source : Source
  sourceVideoId : List Char
  originalInput : List Char
  translationHint : Option String
  status : String
  title : Option String
  thumbnailUrl : Option String
  sourceUrl : Option String
  mediaPath : Option String
  subtitlePath : Option String
  llmCostTwd : ℚ
  llmProvider : Option String
  llmModel : Option String
  inputTokens : Option Int
  outputTokens : Option Int
  createdAt : Int
  updatedAt : Int
deriving DecidableEq, Repr

/-- A `tasks` row. -/
structure TaskRow where
  taskId : Nat
  projectId : Nat
  type : String
  status : String
  currentStep : String
  progressPercent : Int
  message : String
  createdAt : Int
  updatedAt : Int
  startedAt : Option Int
  finishedAt : Option Int
  errorMessage : Option String
  cancelRequestedAt : Option Int
  canceledAt : Option Int
deriving DecidableEq, Repr

/-- A `task_events` row. -/
structure TaskEventRow where
  taskId : Nat
  projectId : Nat
  level : String
  step : String
  eventType : String
  message : String
  percent : Int
  durationMs : Option Int
  errorMessage : Option String
  createdAt : Int
deriving DecidableEq, Repr

/-- A `task_step_states` row. -/
structure TaskStepStateRow where
  taskId : Nat
  projectId : Nat
  step : String
  status : String
  attempt : Int
  startedAt : Option Int
  finishedAt : Option Int
  durationMs : Option Int
  errorMessage : Option String
  outputJson : Option String
  createdAt : Int
  updatedAt : Int
deriving DecidableEq, Repr

/-- The database. -/
structure Store where
  projects : List ProjectRow
  tasks : List TaskRow
  events : List TaskEventRow
  stepStates : List TaskStepStateRow
deriving DecidableEq, Repr

/-- The errors the repository throws (`new Error(...)`), distinguished the way
`project-service.ts` distinguishes them (by message). -/
inductive StoreErr where
  | conflict (msg : String)
  | notFound (msg : String)
deriving DecidableEq, Repr

/-- drizzle `.set({...})` omits a field whose value is `undefined`; the stored
column keeps its previous value.  (An explicit `null` would be needed to clear
it.) -/
def keepOld {α : Type} (new old : Option α) : Option α :=
  match new with
  | some v => some v
  | none => old

namespace repository

/-- Input of `repository.appendTaskEvent`. -/
structure AppendEventInput where
  taskId : Nat
  projectId : Nat
  step : Option String
  eventType : Option String
  level : Option String
  message : String
  percent : Int
  durationMs : Option Int
  errorMessage : Option String

/-- `repository.appendTaskEvent`: insert one event row with the source's
defaults (`level ?? 'info'`, `step ?? 'system'`, `eventType ?? 'system'`). -/
def appendTaskEvent (st : Store) (t : Int) (input : AppendEventInput) : Store :=
  { st with events := st.events ++ [{
      taskId := input.taskId
      projectId := input.projectId
      level := input.level.getD "info"
      step := input.step.getD "system"
      eventType := input.eventType.getD "system"
      message := input.message
      percent := input.percent
      durationMs := input.durationMs
      errorMessage := input.errorMessage
      createdAt := t }] }

/-- Input of `repository.submitProject`. -/
structure SubmitProjectInput where
  source : Source
  sourceVideoId : List Char
  originalInput : List Char
  translationHint : Option String

/-- `repository.submitProject`: reject a duplicate `(source, sourceVideoId)`
pair, otherwise insert the project row, the task row and the initial event. -/
def submitProject (st : Store) (t : Int) (projectId taskId : Nat)
    (input : SubmitProjectInput) : Except StoreErr (Nat × Nat) × Store :=
  if st.projects.any (fun p =>
      decide (p.source = input.source ∧ p.sourceVideoId = input.sourceVideoId)) then
    (.error (.conflict "Project already exists for this source and videoId"), st)
  else
    let st1 : Store := { st with projects := st.projects ++ [{
      projectId
      source := input.source
      sourceVideoId := input.sourceVideoId
      originalInput := input.originalInput
      translationHint := input.translationHint
      status := "queued"
      title := none, thumbnailUrl := none, sourceUrl := none
      mediaPath := none, subtitlePath := none
      llmCostTwd := 0
      llmProvider := none, llmModel := none
      inputTokens := none, outputTokens := none
      createdAt := t, updatedAt := t }] }
    let st2 : Store := { st1 with tasks := st1.tasks ++ [{
      taskId
      projectId
      type := "pipeline"
      status := "queued"
      currentStep := "submit"
      progressPercent := 0
      message := "Project submitted"
      createdAt := t, updatedAt := t
      startedAt := none, finishedAt := none
      errorMessage := none, cancelRequestedAt := none, canceledAt := none }] }
    let st3 := appendTaskEvent st2 t {
      taskId, projectId
      step := some "submit"
      eventType := some "system"
      level := some "info"
      message := "Project created and queued"
      percent := 0
      durationMs := none, errorMessage := none }
    (.ok (projectId, taskId), st3)

/-- Input of `repository.updateProjectFromPipeline`; `none` models an absent
(`undefined`) field, which drizzle leaves unchanged. -/
structure UpdateProjectInput where
  projectId : Nat
  status : String
  title : Option String
  thumbnailUrl : Option String
  sourceUrl : Option String
  mediaPath : Option String
  subtitlePath : Option String
  llmCostTwd : Option ℚ
  llmProvider : Option String
  llmModel : Option String
  inputTokens : Option Int
  outputTokens : Option Int

/-- The common call shape `updateProjectFromPipeline({projectId, status})`. -/
def onlyStatus (projectId : Nat) (status : String) : UpdateProjectInput :=
  ⟨projectId, status, none, none, none, none, none, none, none, none, none, none⟩

/-- `repository.updateProjectFromPipeline`: partial update of the project row,
bumping `updatedAt`. -/
def updateProjectFromPipeline (st : Store) (t : Int) (input : UpdateProjectInput) : Store :=
  { st with projects := st.projects.map fun p =>
      if p.projectId = input.projectId then
        { p with
          status := input.status
          title := keepOld input.title p.title
          thumbnailUrl := keepOld input.thumbnailUrl p.thumbnailUrl
          sourceUrl := keepOld input.sourceUrl p.sourceUrl
          mediaPath := keepOld input.mediaPath p.mediaPath
          subtitlePath := keepOld input.subtitlePath p.subtitlePath
          llmCostTwd := input.llmCostTwd.getD p.llmCostTwd
          llmProvider := keepOld input.llmProvider p.llmProvider
          llmModel := keepOld input.llmModel p.llmModel
          inputTokens := keepOld input.inputTokens p.inputTokens
          outputTokens := keepOld input.outputTokens p.outputTokens
          updatedAt := t }
      else p }

/-- `repository.getTaskRuntime`: the task row with the given `taskId`. -/
def getTaskRuntime (st : Store) (taskId : Nat) : Option TaskRow :=
  st.tasks.find? fun x => x.taskId == taskId

/-- `['completed', 'failed', 'canceled'].includes(status)`. -/
def isTerminalStatus (s : String) : Bool :=
  s == "completed" || s == "failed" || s == "canceled"

/-- `repository.requestTaskCancel`: state-dependent cancellation request. -/
def requestTaskCancel (st : Store) (t : Int) (taskId : Nat) :
    Except StoreErr (Nat × Nat × String) × Store :=
  match getTaskRuntime st taskId with
  | none => (.error (.notFound "Task not found"), st)
  | some task =>
    if isTerminalStatus task.status then
      (.ok (task.taskId, task.projectId, task.status), st)
    else if task.status = "queued" then
      let st1 : Store := { st with tasks := st.tasks.map fun x =>
        if x.taskId = taskId then
          { x with
            status := "canceled"
            currentStep := "canceled"
            message := "Task canceled before execution"
            finishedAt := some t
            canceledAt := some t
            cancelRequestedAt := some t
            errorMessage := some "Canceled by user"
            updatedAt := t }
        else x }
      let st2 := updateProjectFromPipeline st1 t (onlyStatus task.projectId "canceled")
      let st3 := appendTaskEvent st2 t {
        taskId
        projectId := task.projectId
        step := some "canceled"
        eventType := some "system"
        level := some "warn"
        message := "Task canceled before execution"
        percent := task.progressPercent
        durationMs := none
        errorMessage := some "Canceled by user" }
      (.ok (task.taskId, task.projectId, "canceled"), st3)
    else
      let st1 : Store := { st with tasks := st.tasks.map fun x =>
        if x.taskId = taskId then
          { x with
            status := "canceling"
            message := "Cancel requested; stopping at next safe point"
            cancelRequestedAt := some t
            updatedAt := t }
        else x }
      let st2 := updateProjectFromPipeline st1 t (onlyStatus task.projectId "canceling")
      let st3 := appendTaskEvent st2 t {
        taskId
        projectId := task.projectId
        step := some task.currentStep
        eventType := some "system"
        level := some "warn"
        message := "Cancel requested; waiting for current step to finish"
        percent := task.progressPercent
        durationMs := none
        errorMessage := none }
      (.ok (task.taskId, task.projectId, "canceling"), st3)

/-- Input of `repository.updateTaskProgress`. -/
structure UpdateTaskProgressInput where
  taskId : Nat
  status : String
  step : String
  percent : Int
  message : String
  errorMessage : Option String
  eventType : Option String
  level : Option String
  durationMs : Option Int

/-- `repository.updateTaskProgress`: fail with NotFound when the task is
absent, else update the task row (first `startedAt` wins, `finishedAt` set
exactly on terminal status, `errorMessage ?? null`) and append one event. -/
def updateTaskProgress (st : Store) (t : Int) (input : UpdateTaskProgressInput) :
    Except StoreErr Unit × Store :=
  match st.tasks.find? (fun x => x.taskId == input.taskId) with
  | none => (.error (.notFound "Task not found"), st)
  | some task =>
    let st1 : Store := { st with tasks := st.tasks.map fun x =>
      if x.taskId = input.taskId then
        { x with
          status := input.status
          currentStep := input.step
          progressPercent := input.percent
          message := input.message
          updatedAt := t
          startedAt := some (x.startedAt.getD t)
          finishedAt := if isTerminalStatus input.status then some t else none
          errorMessage := input.errorMessage }
      else x }
    let st2 := appendTaskEvent st1 t {
      taskId := task.taskId
      projectId := task.projectId
      step := some input.step
      eventType := some (input.eventType.getD "system")
      level := some (input.level.getD (if input.errorMessage.isSome then "error" else "info"))
      message := input.message
      percent := input.percent
      durationMs := input.durationMs
      errorMessage := input.errorMessage }
    (.ok (), st2)

/-- Input of `repository.upsertTaskStepState`. -/
structure UpsertStepInput where
  taskId : Nat
  projectId : Nat
  step : String
  status : String
  attempt : Option Int
  startedAt : Option Int
  finishedAt : Option Int
  durationMs : Option Int
  errorMessage : Option String
  outputJson : Option String

/-- `repository.upsertTaskStepState`.  In the update branch the source passes
`finishedAt`/`durationMs`/`errorMessage` straight through to drizzle's
`.set`, so an absent value leaves the stored column unchanged (`keepOld`);
`attempt`/`startedAt`/`outputJson` use an explicit `?? existing` with the same
effect. -/
def upsertTaskStepState (st : Store) (t : Int) (input : UpsertStepInput) : Store :=
  match st.stepStates.find? (fun r => r.taskId == input.taskId && r.step == input.step) with
  | some _ =>
    { st with stepStates := st.stepStates.map fun r =>
        if r.taskId = input.taskId ∧ r.step = input.step then
          { r with
            status := input.status
            attempt := input.attempt.getD r.attempt
            startedAt := keepOld input.startedAt r.startedAt
            finishedAt := keepOld input.finishedAt r.finishedAt
            durationMs := keepOld input.durationMs r.durationMs
            errorMessage := keepOld input.errorMessage r.errorMessage
            outputJson := keepOld input.outputJson r.outputJson
            updatedAt := t }
        else r }
  | none =>
    { st with stepStates := st.stepStates ++ [{
        taskId := input.taskId
        projectId := input.projectId
        step := input.step
        status := input.status
        attempt := input.attempt.getD 0
        startedAt := input.startedAt
        finishedAt := input.finishedAt
        durationMs := input.durationMs
        errorMessage := input.errorMessage
        outputJson := input.outputJson
        createdAt := t, updatedAt := t }] }

/-- `repository.markStepStart`: upsert to `running`, incrementing the previous
attempt count (0 when no row exists), fresh `startedAt`; the remaining fields
are passed as `undefined`. -/
def markStepStart (st : Store) (t : Int) (taskId projectId : Nat) (step : String) :
    Int × Store :=
  let existing := st.stepStates.find? (fun r => r.taskId == taskId && r.step == step)
  let st1 := upsertTaskStepState st t {
    taskId, projectId, step
    status := "running"
    attempt := some ((existing.map (·.attempt)).getD 0 + 1)
    startedAt := some t
    finishedAt := none, durationMs := none, errorMessage := none, outputJson := none }
  (t, st1)

/-- `repository.markStepEnd`: terminal step status with
`durationMs = max(0, now - (existing?.startedAt ?? now))`; returns
`(finishedAt, durationMs)`. -/
def markStepEnd (st : Store) (t : Int) (taskId projectId : Nat) (step : String)
    (status : String) (errorMessage outputJson : Option String) :
    (Int × Int) × Store :=
  let existing := st.stepStates.find? (fun r => r.taskId == taskId && r.step == step)
  let startedAt := (existing.bind (·.startedAt)).getD t
  let durationMs := max 0 (t - startedAt)
  let st1 := upsertTaskStepState st t {
    taskId, projectId, step, status
    attempt := some ((existing.map (·.attempt)).getD 1)
    startedAt := some startedAt
    finishedAt := some t
    durationMs := some durationMs
    errorMessage := errorMessage
    outputJson := outputJson }
  ((t, durationMs), st1)

/-- `repository.retryTask`: requeue the task, set the project back to
`queued`, reset every step row of the task whose status is not `completed`,
and append the retry event. -/
def retryTask (st : Store) (t : Int) (taskId : Nat) :
    Except StoreErr (Nat × Nat) × Store :=
  match st.tasks.find? (fun x => x.taskId == taskId) with
  | none => (.error (.notFound "Task not found"), st)
  | some task =>
    let st1 : Store := { st with tasks := st.tasks.map fun x =>
      if x.taskId = taskId then
        { x with
          status := "queued"
          currentStep := "retry"
          message := "Task retried and queued"
          progressPercent := 0
          errorMessage := none
          cancelRequestedAt := none
          canceledAt := none
          finishedAt := none
          updatedAt := t }
      else x }
    let st2 := updateProjectFromPipeline st1 t (onlyStatus task.projectId "queued")
    let st3 : Store := { st2 with stepStates := st2.stepStates.map fun r =>
      if r.taskId = taskId ∧ r.status ≠ "completed" then
        { r with
          status := "pending"
          startedAt := none
          finishedAt := none
          durationMs := none
          errorMessage := none
          updatedAt := t }
      else r }
    let st4 := appendTaskEvent st3 t {
      taskId := task.taskId
      projectId := task.projectId
      step := some "retry"
      eventType := some "system"
      level := some "info"
      message := "Task retried and queued"
      percent := 0
      durationMs := none, errorMessage := none }
    (.ok (task.taskId, task.projectId), st4)

end repository

/-- The errors `project-service.ts` surfaces. -/
inductive ServiceErr where
  | conflict (msg : String)
  | infrastructure (msg : String)
deriving DecidableEq, Repr

namespace projectService

/-- `projectService.submitProject` from
`src/server/services/project-service.ts`: parse the source reference, then
submit through the repository; a repository error whose message says "already
exists" becomes Conflict, anything else Infrastructure.  (The zod validation
of the raw input shape throws before any state change and is not modelled;
the claims use well-formed inputs.) -/
def submitProject (st : Store) (t : Int) (projectId taskId : Nat)
    (sourceOrUrl : List Char) (translationHint : Option String) :
    Except ServiceErr (Nat × Nat) × Store :=
  match parseSourceInput sourceOrUrl with
  | .error m => (.error (.infrastructure m), st)
  | .ok (src, vid) =>
    match repository.submitProject st t projectId taskId
        { source := src, sourceVideoId := vid, originalInput := sourceOrUrl,
          translationHint := translationHint } with
    | (.error (.conflict m), st1) => (.error (.conflict m), st1)
    | (.error (.notFound m), st1) =>
      (.error (.infrastructure ("submitProject failed: " ++ m)), st1)
    | (.ok r, st1) => (.ok r, st1)

end projectService

/-! ### Sample data used by the witness theorems -/

/-- A queued task row. -/
def sampleQueuedTask : TaskRow :=
  { taskId := 1, projectId := 1, type := "pipeline", status := "queued",
    currentStep := "submit", progressPercent := 0, message := "Project submitted",
    createdAt := 0, updatedAt := 0, startedAt := none, finishedAt := none,
    errorMessage := none, cancelRequestedAt := none, canceledAt := none }

/-- A running task row. -/
def sampleRunningTask : TaskRow :=
  { taskId := 1, projectId := 1, type := "pipeline", status := "running",
    currentStep := "run_asr", progressPercent := 55, message := "Running ASR",
    createdAt := 0, updatedAt := 3, startedAt := some 1, finishedAt := none,
    errorMessage := none, cancelRequestedAt := none, canceledAt := none }

/-- A project row matching the sample tasks. -/
def sampleProject : ProjectRow :=
  { projectId := 1, source := Source.bilibili, sourceVideoId := "BV18KBJBEEMV".data,
    originalInput := "BV18KBJBeEmV".data, translationHint := none, status := "queued",
    title := none, thumbnailUrl := none, sourceUrl := none, mediaPath := none,
    subtitlePath := none, llmCostTwd := 0, llmProvider := none, llmModel := none,
    inputTokens := none, outputTokens := none, createdAt := 0, updatedAt := 0 }

/-- A failed step row with finish, duration and error data set. -/
def sampleFailedStep : TaskStepStateRow :=
  { taskId := 1, projectId := 1, step := "run_asr", status := "failed", attempt := 1,
    startedAt := some 2, finishedAt := some 5, durationMs := some 3,
    errorMessage := some "boom", outputJson := none, createdAt := 2, updatedAt := 5 }

/-- A completed step row with output data set. -/
def sampleCompletedStep : TaskStepStateRow :=
  { taskId := 1, projectId := 1, step := "fetch_metadata", status := "completed",
    attempt := 2, startedAt := some 1, finishedAt := some 2, durationMs := some 1,
    errorMessage := none, outputJson := some "{}", createdAt := 1, updatedAt := 2 }

/-- A store with one project, one running task and two step rows. -/
def sampleStore : Store :=
  { projects := [sampleProject], tasks := [sampleRunningTask],
    events := [], stepStates := [sampleCompletedStep, sampleFailedStep] }

/-- A store with one project and one queued task. -/
def sampleQueuedStore : Store :=
  { projects := [sampleProject], tasks := [sampleQueuedTask],
    events := [], stepStates := [] }

/-- The empty store. -/
def emptyStore : Store := { projects := [], tasks := [], events := [], stepStates := [] }

/-! ## Theorems -/

/-- C5.  `repository.submitProject` on a store already holding the
`(source, sourceVideoId)` pair fails with the Conflict error and returns the
store unchanged (no project row, task row or event inserted); on a store
without the pair it returns ok and appends exactly one project row (status
`queued`), one task row (status `queued`, step `submit`, percent 0) and one
initial `system`/`info` event, touching nothing else. -/
theorem submitProject_spec (st : Store) (t : Int) (pid tid : Nat)
    (input : repository.SubmitProjectInput) :
    ((∃ p ∈ st.projects, p.source = input.source ∧ p.sourceVideoId = input.sourceVideoId) →
      repository.submitProject st t pid tid input
        = (.error (.conflict "Project already exists for this source and videoId"), st))
    ∧ ((¬ ∃ p ∈ st.projects, p.source = input.source ∧ p.sourceVideoId = input.sourceVideoId) →
      ∃ pr tk ev,
        repository.submitProject st t pid tid input
          = (.ok (pid, tid),
             { projects := st.projects ++ [pr], tasks := st.tasks ++ [tk],
               events := st.events ++ [ev], stepStates := st.stepStates }) ∧
        pr.projectId = pid ∧ pr.source = input.source ∧
        pr.sourceVideoId = input.sourceVideoId ∧ pr.status = "queued" ∧
        tk.taskId = tid ∧ tk.projectId = pid ∧ tk.status = "queued" ∧
        tk.currentStep = "submit" ∧ tk.progressPercent = 0 ∧
        ev.taskId = tid ∧ ev.eventType = "system" ∧ ev.level = "info") := by
  constructor
  · rintro ⟨p, hp, hs, hv⟩
    have hc : (st.projects.any fun p =>
        decide (p.source = input.source ∧ p.sourceVideoId = input.sourceVideoId)) = true := by
      rw [List.any_eq_true]
      exact ⟨p, hp, by simp [hs, hv]⟩
    simp only [repository.submitProject, hc]
    rfl
  · intro h
    have hc : (st.projects.any fun p =>
        decide (p.source = input.source ∧ p.sourceVideoId = input.sourceVideoId)) = false := by
      rw [Bool.eq_false_iff]
      intro hcon
      rw [List.any_eq_true] at hcon
      obtain ⟨p, hp, hpv⟩ := hcon
      simp only [decide_eq_true_eq] at hpv
      exact h ⟨p, hp, hpv⟩
    refine ⟨⟨pid, input.source, input.sourceVideoId, input.originalInput,
        input.translationHint, "queued", none, none, none, none, none, 0, none, none,
        none, none, t, t⟩,
      ⟨tid, pid, "pipeline", "queued", "submit", 0, "Project submitted", t, t,
        none, none, none, none, none⟩,
      ⟨tid, pid, "info", "submit", "system", "Project created and queued", 0,
        none, none, t⟩,
      ?_, rfl, rfl, rfl, rfl, rfl, rfl, rfl, rfl, rfl, rfl, rfl, rfl⟩
    simp only [repository.submitProject, hc]
    rfl

/-- C5 witness: the conflict branch at a concrete duplicate store together
with the insert branch at the empty store. -/
theorem submitProject_spec_witness :
    repository.submitProject sampleQueuedStore 7 2 3
        { source := Source.bilibili, sourceVideoId := "BV18KBJBEEMV".data,
          originalInput := "x".data, translationHint := none }
      = (.error (.conflict "Project already exists for this source and videoId"),
         sampleQueuedStore) ∧
    ∃ pr tk ev,
      repository.submitProject emptyStore 7 2 3
          { source := Source.youtube, sourceVideoId := "dQw4w9WgXcQ".data,
            originalInput := "dQw4w9WgXcQ".data, translationHint := none }
        = (.ok (2, 3),
           { projects := [pr], tasks := [tk], events := [ev], stepStates := [] }) ∧
      pr.status = "queued" ∧ tk.status = "queued" := by
  constructor
  · exact (submitProject_spec sampleQueuedStore 7 2 3 _).1
      ⟨sampleProject, by simp [sampleQueuedStore], by simp [sampleProject], by simp [sampleProject]⟩
  · obtain ⟨pr, tk, ev, heq, _, _, _, hpr, _, _, htk, _⟩ :=
      (submitProject_spec emptyStore 7 2 3
        { source := Source.youtube, sourceVideoId := "dQw4w9WgXcQ".data,
          originalInput := "dQw4w9WgXcQ".data, translationHint := none }).2
        (by rintro ⟨p, hp, -⟩; simp [emptyStore] at hp)
    exact ⟨pr, tk, ev, by simpa [emptyStore] using heq, hpr, htk⟩

/-- C6.  `repository.requestTaskCancel` on an existing task: (1) a task in a
terminal status (`completed`/`failed`/`canceled`) is returned unchanged with
its current status; (2) a `queued` task is transitioned to `canceled`, its
project to `canceled`, and one warn-level event is appended; (3) a `running`
task is transitioned to `canceling` with `cancelRequestedAt = now`, its
project to `canceling`, and one warn-level event is appended; in every case no
task-step-state row is mutated. -/
theorem requestTaskCancel_spec (st : Store) (t : Int) (tid : Nat) (tk : TaskRow)
    (h : repository.getTaskRuntime st tid = some tk) :
    (repository.isTerminalStatus tk.status = true →
      repository.requestTaskCancel st t tid = (.ok (tk.taskId, tk.projectId, tk.status), st))
    ∧ (tk.status = "queued" →
      (repository.requestTaskCancel st t tid).1 = .ok (tk.taskId, tk.projectId, "canceled")
      ∧ (∀ x ∈ (repository.requestTaskCancel st t tid).2.tasks,
          x.taskId = tid → x.status = "canceled")
      ∧ (∀ p ∈ (repository.requestTaskCancel st t tid).2.projects,
          p.projectId = tk.projectId → p.status = "canceled")
      ∧ ∃ ev, (repository.requestTaskCancel st t tid).2.events = st.events ++ [ev]
          ∧ ev.level = "warn")
    ∧ (tk.status = "running" →
      (repository.requestTaskCancel st t tid).1 = .ok (tk.taskId, tk.projectId, "canceling")
      ∧ (∀ x ∈ (repository.requestTaskCancel st t tid).2.tasks,
          x.taskId = tid → x.status = "canceling" ∧ x.cancelRequestedAt = some t)
      ∧ (∀ p ∈ (repository.requestTaskCancel st t tid).2.projects,
          p.projectId = tk.projectId → p.status = "canceling")
      ∧ ∃ ev, (repository.requestTaskCancel st t tid).2.events = st.events ++ [ev]
          ∧ ev.level = "warn")
    ∧ (repository.requestTaskCancel st t tid).2.stepStates = st.stepStates := by
  refine ⟨?_, ?_, ?_, ?_⟩
  · intro hterm
    simp only [repository.requestTaskCancel, h, hterm]
    rfl
  · intro hq
    have hr : repository.requestTaskCancel st t tid
        = (.ok (tk.taskId, tk.projectId, "canceled"),
           { projects := st.projects.map (fun p =>
               if p.projectId = tk.projectId then
                 { p with status := "canceled", updatedAt := t }
               else p),
             tasks := st.tasks.map (fun x =>
               if x.taskId = tid then
                 { x with
                   status := "canceled"
                   currentStep := "canceled"
                   message := "Task canceled before execution"
                   finishedAt := some t
                   canceledAt := some t
                   cancelRequestedAt := some t
                   errorMessage := some "Canceled by user"
                   updatedAt := t }
               else x),
             events := st.events ++ [⟨tid, tk.projectId, "warn", "canceled", "system",
               "Task canceled before execution", tk.progressPercent, none,
               some "Canceled by user", t⟩],
             stepStates := st.stepStates }) := by
      simp only [repository.requestTaskCancel, h, hq]
      rfl
    rw [hr]
    refine ⟨rfl, ?_, ?_, ⟨_, rfl, rfl⟩⟩
    · intro x hx hxid
      obtain ⟨y, -, rfl⟩ := List.mem_map.mp hx
      by_cases hy : y.taskId = tid
      · simp [hy]
      · simp only [if_neg hy] at hxid ⊢
        exact absurd hxid hy
    · intro p hp hpid
      obtain ⟨q, -, rfl⟩ := List.mem_map.mp hp
      by_cases hq2 : q.projectId = tk.projectId
      · simp [hq2]
      · simp only [if_neg hq2] at hpid ⊢
        exact absurd hpid hq2
  · intro hrun
    have hr : repository.requestTaskCancel st t tid
        = (.ok (tk.taskId, tk.projectId, "canceling"),
           { projects := st.projects.map (fun p =>
               if p.projectId = tk.projectId then
                 { p with status := "canceling", updatedAt := t }
               else p),
             tasks := st.tasks.map (fun x =>
               if x.taskId = tid then
                 { x with
                   status := "canceling"
                   message := "Cancel requested; stopping at next safe point"
                   cancelRequestedAt := some t
                   updatedAt := t }
               else x),
             events := st.events ++ [⟨tid, tk.projectId, "warn", tk.currentStep, "system",
               "Cancel requested; waiting for current step to finish",
               tk.progressPercent, none, none, t⟩],
             stepStates := st.stepStates }) := by
      simp only [repository.requestTaskCancel, h, hrun]
      rfl
    rw [hr]
    refine ⟨rfl, ?_, ?_, ⟨_, rfl, rfl⟩⟩
    · intro x hx hxid
      obtain ⟨y, -, rfl⟩ := List.mem_map.mp hx
      by_cases hy : y.taskId = tid
      · simp [hy]
      · simp only [if_neg hy] at hxid ⊢
        exact absurd hxid hy
    · intro p hp hpid
      obtain ⟨q, -, rfl⟩ := List.mem_map.mp hp
      by_cases hq2 : q.projectId = tk.projectId
      · simp [hq2]
      · simp only [if_neg hq2] at hpid ⊢
        exact absurd hpid hq2
  · simp only [repository.requestTaskCancel, h]
    split
    · rfl
    · split
      · rfl
      · rfl

/-- C6 witness: cancelling the sample running task yields `canceling` and
leaves the step rows untouched. -/
theorem requestTaskCancel_spec_witness :
    (repository.requestTaskCancel sampleStore 9 1).1 = .ok (1, 1, "canceling")
    ∧ (repository.requestTaskCancel sampleStore 9 1).2.stepStates
        = sampleStore.stepStates := by
  have hspec := requestTaskCancel_spec sampleStore 9 1 sampleRunningTask (by decide)
  exact ⟨(hspec.2.2.1 (by decide)).1, hspec.2.2.2⟩

/-- C7.  `repository.retryTask` on an existing task requeues it
(status `queued`, `currentStep = "retry"`, percent 0, cleared `errorMessage`,
`cancelRequestedAt`, `canceledAt` and `finishedAt`), sets the project to
`queued`, resets exactly the task's step rows whose status is not `completed`
to `pending` with null `startedAt`/`finishedAt`/`durationMs`/`errorMessage`,
and leaves every `completed` step row (and every other task's rows) entirely
unchanged, `outputJson` and `attempt` included. -/
theorem retryTask_spec (st : Store) (t : Int) (tid : Nat) (tk : TaskRow)
    (h : st.tasks.find? (fun x => x.taskId == tid) = some tk) :
    (repository.retryTask st t tid).1 = .ok (tk.taskId, tk.projectId)
    ∧ (∀ x ∈ (repository.retryTask st t tid).2.tasks, x.taskId = tid →
        x.status = "queued" ∧ x.currentStep = "retry" ∧ x.progressPercent = 0
        ∧ x.errorMessage = none ∧ x.cancelRequestedAt = none
        ∧ x.canceledAt = none ∧ x.finishedAt = none)
    ∧ (∀ p ∈ (repository.retryTask st t tid).2.projects,
        p.projectId = tk.projectId → p.status = "queued")
    ∧ (repository.retryTask st t tid).2.stepStates
        = st.stepStates.map (fun s =>
            if s.taskId = tid ∧ s.status ≠ "completed" then
              { s with
                status := "pending"
                startedAt := none
                finishedAt := none
                durationMs := none
                errorMessage := none
                updatedAt := t }
            else s) := by
  have hr : repository.retryTask st t tid
      = (.ok (tk.taskId, tk.projectId),
         { projects := st.projects.map (fun p =>
             if p.projectId = tk.projectId then
               { p with status := "queued", updatedAt := t }
             else p),
           tasks := st.tasks.map (fun x =>
             if x.taskId = tid then
               { x with
                 status := "queued"
                 currentStep := "retry"
                 message := "Task retried and queued"
                 progressPercent := 0
                 errorMessage := none
                 cancelRequestedAt := none
                 canceledAt := none
                 finishedAt := none
                 updatedAt := t }
             else x),
           events := st.events ++ [⟨tk.taskId, tk.projectId, "info", "retry", "system",
             "Task retried and queued", 0, none, none, t⟩],
           stepStates := st.stepStates.map (fun s =>
             if s.taskId = tid ∧ s.status ≠ "completed" then
               { s with
                 status := "pending"
                 startedAt := none
                 finishedAt := none
                 durationMs := none
                 errorMessage := none
                 updatedAt := t }
             else s) }) := by
    simp only [repository.retryTask, h]
    rfl
  rw [hr]
  refine ⟨rfl, ?_, ?_, rfl⟩
  · intro x hx hxid
    obtain ⟨y, -, rfl⟩ := List.mem_map.mp hx
    by_cases hy : y.taskId = tid
    · simp [hy]
    · simp only [if_neg hy] at hxid ⊢
      exact absurd hxid hy
  · intro p hp hpid
    obtain ⟨q, -, rfl⟩ := List.mem_map.mp hp
    by_cases hq2 : q.projectId = tk.projectId
    · simp [hq2]
    · simp only [if_neg hq2] at hpid ⊢
      exact absurd hpid hq2

/-- C7 witness: retrying the sample store's task resets only the failed step
row; the completed row survives with its `outputJson` and `attempt`. -/
theorem retryTask_spec_witness :
    (repository.retryTask sampleStore 11 1).2.stepStates
      = [sampleCompletedStep,
         { sampleFailedStep with
           status := "pending"
           startedAt := none
           finishedAt := none
           durationMs := none
           errorMessage := none
           updatedAt := 11 }] := by
  rw [(retryTask_spec sampleStore 11 1 sampleRunningTask (by decide)).2.2.2]
  decide

/-- C8.  After `repository.updateTaskProgress` on an existing task, the task
row has `finishedAt = now` exactly when the written status is terminal
(`completed`/`failed`/`canceled`) and `finishedAt = null` otherwise;
`startedAt` is set on the first call (`old startedAt ?? now`) and preserved
afterwards; exactly one task event is appended together with the update.  On
an absent task the call fails with NotFound and the store (events included) is
unchanged. -/
theorem updateTaskProgress_spec (st : Store) (t : Int)
    (input : repository.UpdateTaskProgressInput) :
    (st.tasks.find? (fun x => x.taskId == input.taskId) = none →
      repository.updateTaskProgress st t input
        = (.error (.notFound "Task not found"), st))
    ∧ (∀ tk, st.tasks.find? (fun x => x.taskId == input.taskId) = some tk →
      (repository.updateTaskProgress st t input).1 = .ok ()
      ∧ (∃ ev, (repository.updateTaskProgress st t input).2.events = st.events ++ [ev]
          ∧ ev.taskId = input.taskId)
      ∧ (∀ x ∈ (repository.updateTaskProgress st t input).2.tasks,
          x.taskId = input.taskId →
            x.status = input.status
            ∧ ((x.finishedAt = some t ∧ repository.isTerminalStatus input.status = true)
               ∨ (x.finishedAt = none ∧ repository.isTerminalStatus input.status = false)))
      ∧ (∀ y ∈ st.tasks, y.taskId = input.taskId →
          ∃ x ∈ (repository.updateTaskProgress st t input).2.tasks,
            x.taskId = input.taskId ∧ x.startedAt = some (y.startedAt.getD t))) := by
  constructor
  · intro hnone
    simp only [repository.updateTaskProgress, hnone]
  · intro tk hfind
    have hr : repository.updateTaskProgress st t input
        = (.ok (),
           { projects := st.projects,
             tasks := st.tasks.map (fun x =>
               if x.taskId = input.taskId then
                 { x with
                   status := input.status
                   currentStep := input.step
                   progressPercent := input.percent
                   message := input.message
                   updatedAt := t
                   startedAt := some (x.startedAt.getD t)
                   finishedAt :=
                     if repository.isTerminalStatus input.status then some t else none
                   errorMessage := input.errorMessage }
               else x),
             events := st.events ++ [⟨tk.taskId, tk.projectId,
               input.level.getD (if input.errorMessage.isSome then "error" else "info"),
               input.step, input.eventType.getD "system", input.message, input.percent,
               input.durationMs, input.errorMessage, t⟩],
             stepStates := st.stepStates }) := by
      simp only [repository.updateTaskProgress, hfind]
      rfl
    have hid : tk.taskId = input.taskId := by
      have := List.find?_some hfind
      simpa using this
    rw [hr]
    refine ⟨rfl, ⟨_, rfl, hid⟩, ?_, ?_⟩
    · intro x hx hxid
      obtain ⟨y, -, rfl⟩ := List.mem_map.mp hx
      by_cases hy : y.taskId = input.taskId
      · simp only [if_pos hy]
        refine ⟨by trivial, ?_⟩
        by_cases hterm : repository.isTerminalStatus input.status = true
        · exact Or.inl ⟨by simp [hterm], hterm⟩
        · exact Or.inr ⟨by simp [Bool.eq_false_iff.mpr hterm],
            Bool.eq_false_iff.mpr hterm⟩
      · simp only [if_neg hy] at hxid ⊢
        exact absurd hxid hy
    · intro y hy hyid
      refine ⟨_, List.mem_map_of_mem _ hy, ?_⟩
      simp only [if_pos hyid]
      exact ⟨hyid, by trivial⟩

/-- C8 witness: updating the sample running task to `completed` sets
`finishedAt`, keeps the original `startedAt`, and appends one event; the same
call on the empty store fails with NotFound. -/
theorem updateTaskProgress_spec_witness :
    (∃ ev, (repository.updateTaskProgress sampleStore 20
        ⟨1, "completed", "done", 100, "Pipeline completed", none, some "system",
         some "info", none⟩).2.events = sampleStore.events ++ [ev] ∧ ev.taskId = 1)
    ∧ repository.updateTaskProgress emptyStore 20
        ⟨1, "completed", "done", 100, "Pipeline completed", none, some "system",
         some "info", none⟩
      = (.error (.notFound "Task not found"), emptyStore) := by
  constructor
  · exact ((updateTaskProgress_spec sampleStore 20 _).2 sampleRunningTask (by decide)).2.1
  · exact (updateTaskProgress_spec emptyStore 20 _).1 (by decide)

/-- C9 (as amended).  `repository.markStepStart` upserts the step row to
`running` with `attempt = prev.attempt + 1` (1 when no row existed) and a
fresh `startedAt`.  When no row existed the new row has null `finishedAt`,
`durationMs` and `errorMessage`; when a row existed those three columns keep
their previous values, because the source passes them as `undefined` and
drizzle's `.set` omits `undefined` fields instead of writing `NULL`. -/
theorem markStepStart_spec (st : Store) (t : Int) (tid pid : Nat) (step : String) :
    (st.stepStates.find? (fun r => r.taskId == tid && r.step == step) = none →
      (repository.markStepStart st t tid pid step).2.stepStates
        = st.stepStates
            ++ [⟨tid, pid, step, "running", 1, some t, none, none, none, none, t, t⟩])
    ∧ (∀ ex, st.stepStates.find? (fun r => r.taskId == tid && r.step == step) = some ex →
      (repository.markStepStart st t tid pid step).2.stepStates
        = st.stepStates.map (fun r =>
            if r.taskId = tid ∧ r.step = step then
              { r with
                status := "running"
                attempt := ex.attempt + 1
                startedAt := some t
                updatedAt := t }
            else r)) := by
  constructor
  · intro hfind
    simp only [repository.markStepStart, repository.upsertTaskStepState, hfind]
    rfl
  · intro ex hfind
    simp only [repository.markStepStart, repository.upsertTaskStepState, hfind]
    rfl

/-- C9 counterexample to the claim as stated: starting a step over an existing
failed row does not clear `finishedAt`, `durationMs` or `errorMessage` - the
stale values survive next to the fresh `running`/`attempt`/`startedAt`. -/
theorem markStepStart_counterexample :
    ((repository.markStepStart ⟨[], [], [], [sampleFailedStep]⟩ 10 1 1 "run_asr").2.stepStates.map
        (fun r => (r.status, r.attempt, r.startedAt, r.finishedAt, r.durationMs, r.errorMessage)))
      = [("running", 2, some 10, some 5, some 3, some "boom")]
    ∧ some (5 : Int) ≠ (none : Option Int) := by
  exact ⟨by rfl, by decide⟩

/-- C9 witness: both branches of the amended theorem at concrete stores. -/
theorem markStepStart_spec_witness :
    (repository.markStepStart sampleStore 10 1 1 "run_asr").2.stepStates
      = [sampleCompletedStep,
         { sampleFailedStep with
           status := "running", attempt := 2, startedAt := some 10, updatedAt := 10 }]
    ∧ (repository.markStepStart emptyStore 10 1 1 "run_asr").2.stepStates
      = [⟨1, 1, "run_asr", "running", 1, some 10, none, none, none, none, 10, 10⟩] := by
  constructor
  · rw [(markStepStart_spec sampleStore 10 1 1 "run_asr").2 sampleFailedStep (by decide)]
    decide
  · rw [(markStepStart_spec emptyStore 10 1 1 "run_asr").1 (by decide)]
    decide

/-- C10.  `repository.markStepEnd` never returns a negative duration; with no
existing row (or a row without `startedAt`) it still succeeds, writes
`startedAt = finishedAt = now` (attempt 1 when no row existed) and returns
`durationMs = 0`; in general it returns
`durationMs = max 0 (now - startedAt)`. -/
theorem markStepEnd_spec (st : Store) (t : Int) (tid pid : Nat) (step status : String)
    (em oj : Option String) :
    0 ≤ (repository.markStepEnd st t tid pid step status em oj).1.2
    ∧ (st.stepStates.find? (fun r => r.taskId == tid && r.step == step) = none →
        (repository.markStepEnd st t tid pid step status em oj).1.2 = 0
        ∧ (repository.markStepEnd st t tid pid step status em oj).2.stepStates
            = st.stepStates
                ++ [⟨tid, pid, step, status, 1, some t, some t, some 0, em, oj, t, t⟩])
    ∧ (∀ ex, st.stepStates.find? (fun r => r.taskId == tid && r.step == step) = some ex →
        ex.startedAt = none →
        (repository.markStepEnd st t tid pid step status em oj).1.2 = 0
        ∧ (repository.markStepEnd st t tid pid step status em oj).2.stepStates
            = st.stepStates.map (fun r =>
                if r.taskId = tid ∧ r.step = step then
                  { r with
                    status := status
                    attempt := ex.attempt
                    startedAt := some t
                    finishedAt := some t
                    durationMs := some 0
                    errorMessage := keepOld em r.errorMessage
                    outputJson := keepOld oj r.outputJson
                    updatedAt := t }
                else r))
    ∧ (∀ ex, st.stepStates.find? (fun r => r.taskId == tid && r.step == step) = some ex →
        ∀ s0, ex.startedAt = some s0 →
        (repository.markStepEnd st t tid pid step status em oj).1.2 = max 0 (t - s0)) := by
  refine ⟨le_max_left 0 _, ?_, ?_, ?_⟩
  · intro hfind
    constructor
    · simp only [repository.markStepEnd, hfind]
      simp
    · simp only [repository.markStepEnd, repository.upsertTaskStepState, hfind]
      simp
  · intro ex hfind hs
    constructor
    · simp only [repository.markStepEnd, hfind]
      simp [hs]
    · simp only [repository.markStepEnd, repository.upsertTaskStepState, hfind]
      simp [keepOld, hs]
  · intro ex hfind s0 hs
    simp only [repository.markStepEnd, hfind]
    simp [hs]

/-- C10 witness: ending a step with no prior row, and ending the sample failed
row (whose `startedAt` is 2) at time 10. -/
theorem markStepEnd_spec_witness :
    ((repository.markStepEnd emptyStore 10 1 1 "run_asr" "completed" none none).1.2 = 0
      ∧ (repository.markStepEnd emptyStore 10 1 1 "run_asr" "completed" none none).2.stepStates
        = [⟨1, 1, "run_asr", "completed", 1, some 10, some 10, some 0, none, none, 10, 10⟩])
    ∧ (repository.markStepEnd sampleStore 10 1 1 "run_asr" "completed" none none).1.2
        = max 0 (10 - 2) := by
  constructor
  · exact (markStepEnd_spec emptyStore 10 1 1 "run_asr" "completed" none none).2.1 (by decide)
  · exact (markStepEnd_spec sampleStore 10 1 1 "run_asr" "completed" none none).2.2.2
      sampleFailedStep (by decide) 2 (by decide)

theorem mapVia_eq_self (as bs : List Char) (c : Char) (hc : c ∉ as) :
    mapVia as bs c = c := by
  induction as generalizing bs with
  | nil => cases bs <;> rfl
  | cons a as' ih =>
    cases bs with
    | nil => rfl
    | cons b bs' =>
      rw [mapVia, if_neg (fun h => hc (by rw [h]; exact List.mem_cons_self a as'))]
      exact ih bs' (fun h => hc (List.mem_cons_of_mem a h))

theorem upperOf_eq_self (c : Char) (hc : c ∉ lowerChars) : upperOf c = c := by
  rw [upperOf]
  exact mapVia_eq_self _ _ _ hc

theorem lowerOf_eq_self (c : Char) (hc : c ∉ upperChars) : lowerOf c = c := by
  rw [lowerOf]
  exact mapVia_eq_self _ _ _ hc

theorem lowerOf_upperOf (c : Char) : lowerOf (upperOf c) = lowerOf c := by
  by_cases hc : c ∈ lowerChars
  · exact (by decide : ∀ x ∈ lowerChars, lowerOf (upperOf x) = lowerOf x) c hc
  · rw [upperOf_eq_self c hc]

theorem upperOf_upperOf (c : Char) : upperOf (upperOf c) = upperOf c := by
  by_cases hc : c ∈ lowerChars
  · exact (by decide : ∀ x ∈ lowerChars, upperOf (upperOf x) = upperOf x) c hc
  · rw [upperOf_eq_self c hc]
    exact upperOf_eq_self c hc

theorem isAlnumChar_upperOf (c : Char) : isAlnumChar (upperOf c) = isAlnumChar c := by
  by_cases hc : c ∈ lowerChars
  · exact (by decide : ∀ x ∈ lowerChars, isAlnumChar (upperOf x) = isAlnumChar x) c hc
  · rw [upperOf_eq_self c hc]

theorem isJsWs_upperOf (c : Char) : isJsWs (upperOf c) = isJsWs c := by
  by_cases hc : c ∈ lowerChars
  · exact (by decide : ∀ x ∈ lowerChars, isJsWs (upperOf x) = isJsWs x) c hc
  · rw [upperOf_eq_self c hc]

theorem isJsWs_lowerOf (c : Char) : isJsWs (lowerOf c) = isJsWs c := by
  by_cases hc : c ∈ upperChars
  · exact (by decide : ∀ x ∈ upperChars, isJsWs (lowerOf x) = isJsWs x) c hc
  · rw [lowerOf_eq_self c hc]

theorem isAlnumChar_mem (c : Char) (h : isAlnumChar c = true) :
    c ∈ digitChars ∨ c ∈ upperChars ∨ c ∈ lowerChars := by
  unfold isAlnumChar at h
  rcases Bool.or_eq_true_iff.mp h with h1 | h2
  · rcases Bool.or_eq_true_iff.mp h1 with h3 | h4
    · exact Or.inl (by simpa using h3)
    · exact Or.inr (Or.inl (by simpa using h4))
  · exact Or.inr (Or.inr (by simpa using h2))

theorem isJsWs_eq_false_of_alnum (c : Char) (h : isAlnumChar c = true) :
    isJsWs c = false := by
  rcases isAlnumChar_mem c h with hm | hm | hm
  · exact (by decide : ∀ x ∈ digitChars, isJsWs x = false) c hm
  · exact (by decide : ∀ x ∈ upperChars, isJsWs x = false) c hm
  · exact (by decide : ∀ x ∈ lowerChars, isJsWs x = false) c hm

theorem isJsWs_eq_false_of_ytId (c : Char) (h : isYtIdChar c = true) :
    isJsWs c = false := by
  unfold isYtIdChar at h
  rcases Bool.or_eq_true_iff.mp h with h1 | h2
  · rcases Bool.or_eq_true_iff.mp h1 with h3 | h4
    · exact isJsWs_eq_false_of_alnum c h3
    · have : c = '_' := by simpa using h4
      subst this
      decide
  · have : c = '-' := by simpa using h2
    subst this
    decide

theorem lowerOf_ne_of_ytId (c : Char) (h : isYtIdChar c = true) :
    lowerOf c ≠ '/' ∧ lowerOf c ≠ '=' ∧ lowerOf c ≠ '.' := by
  by_cases hc : c ∈ upperChars
  · exact (by decide :
      ∀ x ∈ upperChars, lowerOf x ≠ '/' ∧ lowerOf x ≠ '=' ∧ lowerOf x ≠ '.') c hc
  · rw [lowerOf, mapVia_eq_self _ _ _ hc]
    refine ⟨?_, ?_, ?_⟩ <;> intro hcc <;> subst hcc <;> revert h <;> decide

theorem ciMismatch_hasLit_false :
    ∀ (pat u : List Char), ciMismatch pat u = true →
      ∀ s, ciHasLit pat (u ++ s) = false := by
  intro pat
  induction pat with
  | nil =>
    intro u h s
    rw [ciMismatch] at h
    cases h
  | cons p ps ih =>
    intro u h s
    cases u with
    | nil =>
      rw [ciMismatch] at h
      cases h
    | cons c cs =>
      simp only [ciHasLit, decide_eq_false_iff_not]
      intro heq
      rw [List.cons_append, List.length_cons, List.take_succ_cons,
        List.map_cons] at heq
      rw [List.cons_eq_cons] at heq
      by_cases hl : lowerOf c = p
      · rw [ciMismatch, if_pos hl] at h
        have htail := ih cs h s
        simp only [ciHasLit, decide_eq_false_iff_not] at htail
        exact htail heq.2
      · exact hl heq.1

theorem bvMatchAt_append_none (u s : List Char)
    (h : ciMismatch ['b', 'v'] u = true) : bvMatchAt (u ++ s) = none := by
  have hlit := ciMismatch_hasLit_false _ _ h s
  unfold bvMatchAt
  rw [if_neg]
  rintro ⟨h1, -, -⟩
  rw [hlit] at h1
  cases h1

theorem tverMatchAt_append_none (u s : List Char)
    (h : ciMismatch "episodes/".data u = true) : tverMatchAt (u ++ s) = none := by
  have hlit := ciMismatch_hasLit_false _ _ h s
  unfold tverMatchAt
  rw [if_neg]
  intro h1
  rw [hlit] at h1
  cases h1

theorem ytMatchAt_append_none (u s : List Char)
    (h1 : ciMismatch ['v', '='] u = true)
    (h2 : ciMismatch "youtu.be/".data u = true) : ytMatchAt (u ++ s) = none := by
  have hlit1 := ciMismatch_hasLit_false _ _ h1 s
  have hlit2 := ciMismatch_hasLit_false _ _ h2 s
  unfold ytMatchAt
  rw [if_neg, if_neg]
  · rintro ⟨hc, -, -⟩
    rw [hlit2] at hc
    cases hc
  · rintro ⟨hc, -, -⟩
    rw [hlit1] at hc
    cases hc

theorem scanFirst_append_none (matchAt : List Char → Option (List Char)) :
    ∀ P s, (∀ u, u ≠ [] → (∃ v, v ++ u = P) → matchAt (u ++ s) = none) →
      scanFirst matchAt (P ++ s) = scanFirst matchAt s := by
  intro P
  induction P with
  | nil => intro s _; rfl
  | cons c P' ih =>
    intro s h
    have hnone : matchAt ((c :: P') ++ s) = none := h (c :: P') (by simp) ⟨[], rfl⟩
    rw [List.cons_append] at hnone ⊢
    simp only [scanFirst, hnone]
    refine ih s ?_
    rintro u hu ⟨v, hv⟩
    exact h u hu ⟨c :: v, by rw [← hv, List.cons_append]⟩

theorem bvSafe_suffix (P : List Char) (h : bvSafe P = true) :
    ∀ u, (∃ v, v ++ u = P) → u ≠ [] → ciMismatch ['b', 'v'] u = true := by
  induction P with
  | nil =>
    rintro u ⟨v, hv⟩ hu
    exact absurd (List.append_eq_nil.mp hv).2 hu
  | cons c P' ih =>
    rw [bvSafe, Bool.and_eq_true] at h
    rintro u ⟨v, hv⟩ hu
    cases v with
    | nil =>
      rw [List.nil_append] at hv
      rw [hv]
      exact h.1
    | cons a v' =>
      rw [List.cons_append] at hv
      injection hv with hv1 hv2
      exact ih h.2 u ⟨v', hv2⟩ hu

theorem tverSafe_suffix (P : List Char) (h : tverSafe P = true) :
    ∀ u, (∃ v, v ++ u = P) → u ≠ [] → ciMismatch "episodes/".data u = true := by
  induction P with
  | nil =>
    rintro u ⟨v, hv⟩ hu
    exact absurd (List.append_eq_nil.mp hv).2 hu
  | cons c P' ih =>
    rw [tverSafe, Bool.and_eq_true] at h
    rintro u ⟨v, hv⟩ hu
    cases v with
    | nil =>
      rw [List.nil_append] at hv
      rw [hv]
      exact h.1
    | cons a v' =>
      rw [List.cons_append] at hv
      injection hv with hv1 hv2
      exact ih h.2 u ⟨v', hv2⟩ hu

theorem ytSafe_suffix (P : List Char) (h : ytSafe P = true) :
    ∀ u, (∃ v, v ++ u = P) → u ≠ [] →
      ciMismatch ['v', '='] u = true ∧ ciMismatch "youtu.be/".data u = true := by
  induction P with
  | nil =>
    rintro u ⟨v, hv⟩ hu
    exact absurd (List.append_eq_nil.mp hv).2 hu
  | cons c P' ih =>
    rw [ytSafe, Bool.and_eq_true] at h
    rintro u ⟨v, hv⟩ hu
    cases v with
    | nil =>
      rw [List.nil_append] at hv
      rw [hv]
      exact Bool.and_eq_true _ _ |>.mp h.1
    | cons a v' =>
      rw [List.cons_append] at hv
      injection hv with hv1 hv2
      exact ih h.2 u ⟨v', hv2⟩ hu

theorem findBV_append (P s : List Char) (h : bvSafe P = true) :
    findBV (P ++ s) = findBV s := by
  unfold findBV
  apply scanFirst_append_none
  intro u hu hex
  exact bvMatchAt_append_none u s (bvSafe_suffix P h u hex hu)

theorem findTver_append (P s : List Char) (h : tverSafe P = true) :
    findTver (P ++ s) = findTver s := by
  unfold findTver
  apply scanFirst_append_none
  intro u hu hex
  exact tverMatchAt_append_none u s (tverSafe_suffix P h u hex hu)

theorem findYt_append (P s : List Char) (h : ytSafe P = true) :
    findYt (P ++ s) = findYt s := by
  unfold findYt
  apply scanFirst_append_none
  intro u hu hex
  obtain ⟨ha, hb⟩ := ytSafe_suffix P h u hex hu
  exact ytMatchAt_append_none u s ha hb

theorem bvMatchAt_none_short (l : List Char) (h : l.length < 12) :
    bvMatchAt l = none := by
  unfold bvMatchAt
  rw [if_neg]
  rintro ⟨-, h10, -⟩
  rw [List.length_drop] at h10
  omega

theorem findBV_none_short : ∀ l : List Char, l.length < 12 → findBV l = none := by
  intro l
  unfold findBV
  induction l with
  | nil => intro _; rfl
  | cons c rest ih =>
    intro h
    simp only [scanFirst, bvMatchAt_none_short _ h]
    exact ih (by rw [List.length_cons] at h; omega)

theorem tverMatchAt_none_of_ytId (l : List Char) (h : l.all isYtIdChar = true) :
    tverMatchAt l = none := by
  unfold tverMatchAt
  rw [if_neg]
  intro hlit
  have heq : (l.take 9).map lowerOf = "episodes/".data := of_decide_eq_true hlit
  have hmem : '/' ∈ (l.take 9).map lowerOf := by
    rw [heq]
    decide
  obtain ⟨x, hx, hlx⟩ := List.mem_map.mp hmem
  have hxl : x ∈ l := List.mem_of_mem_take hx
  have hid : isYtIdChar x = true := List.all_eq_true.mp h x hxl
  exact absurd hlx (lowerOf_ne_of_ytId x hid).1

theorem ytMatchAt_none_of_ytId (l : List Char) (h : l.all isYtIdChar = true) :
    ytMatchAt l = none := by
  have hA : ¬ (ciHasLit ['v', '='] l = true ∧ 11 ≤ (l.drop 2).length
      ∧ ((l.drop 2).take 11).all isYtIdChar = true) := by
    rintro ⟨hlit, -, -⟩
    have heq : (l.take 2).map lowerOf = ['v', '='] := of_decide_eq_true hlit
    have hmem : '=' ∈ (l.take 2).map lowerOf := by
      rw [heq]
      decide
    obtain ⟨x, hx, hlx⟩ := List.mem_map.mp hmem
    have hid : isYtIdChar x = true := List.all_eq_true.mp h x (List.mem_of_mem_take hx)
    exact absurd hlx (lowerOf_ne_of_ytId x hid).2.1
  have hB : ¬ (ciHasLit "youtu.be/".data l = true ∧ 11 ≤ (l.drop 9).length
      ∧ ((l.drop 9).take 11).all isYtIdChar = true) := by
    rintro ⟨hlit, -, -⟩
    have heq : (l.take 9).map lowerOf = "youtu.be/".data := of_decide_eq_true hlit
    have hmem : '.' ∈ (l.take 9).map lowerOf := by
      rw [heq]
      decide
    obtain ⟨x, hx, hlx⟩ := List.mem_map.mp hmem
    have hid : isYtIdChar x = true := List.all_eq_true.mp h x (List.mem_of_mem_take hx)
    exact absurd hlx (lowerOf_ne_of_ytId x hid).2.2
  unfold ytMatchAt
  rw [if_neg hA, if_neg hB]

theorem scanFirst_none_of_all (matchAt : List Char → Option (List Char))
    (p : Char → Bool) (hm : ∀ l, l.all p = true → matchAt l = none) :
    ∀ l, l.all p = true → scanFirst matchAt l = none := by
  intro l
  induction l with
  | nil => intro _; rfl
  | cons c rest ih =>
    intro h
    simp only [scanFirst, hm _ h]
    refine ih ?_
    rw [List.all_cons, Bool.and_eq_true] at h
    exact h.2

theorem scanFirst_prop {matchAt : List Char → Option (List Char)}
    {Q : List Char → Prop} (hP : ∀ l m, matchAt l = some m → Q m) :
    ∀ l m, scanFirst matchAt l = some m → Q m := by
  intro l
  induction l with
  | nil =>
    intro m h
    rw [scanFirst] at h
    cases h
  | cons c rest ih =>
    intro m h
    cases hm : matchAt (c :: rest) with
    | some m2 =>
      simp only [scanFirst, hm, Option.some.injEq] at h
      exact h ▸ hP _ _ hm
    | none =>
      simp only [scanFirst, hm] at h
      exact ih m h

theorem bvMatchAt_shape (l m : List Char) (h : bvMatchAt l = some m) :
    ∃ b v w, m = b :: v :: w ∧ lowerOf b = 'b' ∧ lowerOf v = 'v'
      ∧ w.length = 10 ∧ w.all isAlnumChar = true := by
  unfold bvMatchAt at h
  split_ifs at h with hcond
  · obtain ⟨hlit, hlen, hall⟩ := hcond
    injection h with hm
    subst hm
    have heq : (l.take 2).map lowerOf = ['b', 'v'] := of_decide_eq_true hlit
    match l with
    | [] => simp at heq
    | [x] => simp at heq
    | x :: y :: l2 =>
      rw [show ((x :: y :: l2).take 2) = [x, y] from rfl, List.map_cons,
        List.map_cons, List.map_nil] at heq
      rw [List.cons_eq_cons] at heq
      rw [List.cons_eq_cons] at heq
      refine ⟨x, y, l2.take 10, rfl, heq.1, heq.2.1, ?_, ?_⟩
      · rw [show ((x :: y :: l2).drop 2) = l2 from rfl] at hlen
        rw [List.length_take]
        omega
      · rw [show ((x :: y :: l2).drop 2) = l2 from rfl] at hall
        exact hall

theorem ytMatchAt_shape (l m : List Char) (h : ytMatchAt l = some m) :
    m.length = 11 ∧ m.all isYtIdChar = true := by
  unfold ytMatchAt at h
  split_ifs at h with h1 h2
  · obtain ⟨-, hlen, hall⟩ := h1
    injection h with hm
    subst hm
    constructor
    · rw [List.length_take]
      omega
    · exact hall
  · obtain ⟨-, hlen, hall⟩ := h2
    injection h with hm
    subst hm
    constructor
    · rw [List.length_take]
      omega
    · exact hall

theorem extract_eq_bilibili (input vid : List Char)
    (h : extractByPattern input = some (Source.bilibili, vid)) :
    ∃ m, findBV (trimChars input) = some m ∧ vid = m.map upperOf := by
  simp only [extractByPattern] at h
  cases hbv : findBV (trimChars input) with
  | some m =>
    simp only [hbv, Option.some.injEq, Prod.mk.injEq] at h
    exact ⟨m, rfl, h.2.symm⟩
  | none =>
    exfalso
    simp only [hbv] at h
    cases htv : findTver (trimChars input) with
    | some cap => simp [htv] at h
    | none =>
      simp only [htv] at h
      cases hyt : findYt (trimChars input) with
      | some cap => simp [hyt] at h
      | none =>
        simp only [hyt] at h
        split_ifs at h with hraw
        simp at h

theorem extract_eq_youtube (input vid : List Char)
    (h : extractByPattern input = some (Source.youtube, vid)) :
    findBV (trimChars input) = none ∧ findTver (trimChars input) = none
    ∧ findYt (trimChars input) = some vid := by
  simp only [extractByPattern] at h
  cases hbv : findBV (trimChars input) with
  | some m => simp [hbv] at h
  | none =>
    simp only [hbv] at h
    cases htv : findTver (trimChars input) with
    | some cap => simp [htv] at h
    | none =>
      simp only [htv] at h
      cases hyt : findYt (trimChars input) with
      | some cap =>
        simp only [hyt, Option.some.injEq, Prod.mk.injEq] at h
        exact ⟨rfl, rfl, by rw [h.2]⟩
      | none =>
        exfalso
        simp only [hyt] at h
        split_ifs at h with hraw
        simp at h

theorem dropWhile_eq_self_of_false {p : Char → Bool} {l : List Char}
    (h : ∀ c ∈ l, p c = false) : l.dropWhile p = l := by
  cases l with
  | nil => rfl
  | cons a l' =>
    rw [List.dropWhile_cons, h a (List.mem_cons_self a l')]
    simp

theorem trimChars_eq_self (l : List Char) (h : ∀ c ∈ l, isJsWs c = false) :
    trimChars l = l := by
  unfold trimChars
  rw [dropWhile_eq_self_of_false h,
    dropWhile_eq_self_of_false (fun c hc => h c (List.mem_reverse.mp hc)),
    List.reverse_reverse]

/-- C3.  Source-parser round trip: whenever the parser produced
`(source, sourceVideoId)` from some input and the `sourceUrl` derivation takes
its canonical branch (the original input is not an http(s) URL and the source
is bilibili or youtube), re-parsing the canonical URL yields exactly the same
`(source, sourceVideoId)` pair. -/
theorem parseSource_roundTrip (input orig : List Char) (src : Source) (vid : List Char)
    (hparse : extractByPattern input = some (src, vid))
    (hsrc : src = Source.bilibili ∨ src = Source.youtube)
    (h1 : startsWithLit "http://".data orig = false)
    (h2 : startsWithLit "https://".data orig = false) :
    extractByPattern (normalizeSourceUrl src vid orig) = some (src, vid) := by
  have hhttp : ¬ (startsWithLit "http://".data orig = true
      ∨ startsWithLit "https://".data orig = true) := by
    rintro (hh | hh)
    · rw [h1] at hh
      cases hh
    · rw [h2] at hh
      cases hh
  rcases hsrc with rfl | rfl
  · obtain ⟨m, hbv, hvid⟩ := extract_eq_bilibili input vid hparse
    obtain ⟨b, v, w, hm, hb, hv, hwlen, hwall⟩ :=
      scanFirst_prop bvMatchAt_shape _ _ hbv
    subst hm
    subst hvid
    rw [List.map_cons, List.map_cons]
    have hurl : normalizeSourceUrl Source.bilibili
        (upperOf b :: upperOf v :: w.map upperOf) orig
        = "https://www.bilibili.com/video/".data
          ++ (upperOf b :: upperOf v :: w.map upperOf) := by
      unfold normalizeSourceUrl
      rw [if_neg hhttp, if_pos rfl]
    rw [hurl]
    have hws : ∀ c ∈ "https://www.bilibili.com/video/".data
        ++ (upperOf b :: upperOf v :: w.map upperOf), isJsWs c = false := by
      intro c hc
      rcases List.mem_append.mp hc with hcl | hcr
      · exact (by decide :
          ∀ x ∈ "https://www.bilibili.com/video/".data, isJsWs x = false) c hcl
      · have hcr2 : c ∈ (b :: v :: w).map upperOf := by
          rw [List.map_cons, List.map_cons]
          exact hcr
        obtain ⟨x, hx, rfl⟩ := List.mem_map.mp hcr2
        rw [isJsWs_upperOf]
        rcases List.mem_cons.mp hx with rfl | hx2
        · rw [← isJsWs_lowerOf, hb]
          decide
        · rcases List.mem_cons.mp hx2 with rfl | hx3
          · rw [← isJsWs_lowerOf, hv]
            decide
          · exact isJsWs_eq_false_of_alnum x (List.all_eq_true.mp hwall x hx3)
    have htrim := trimChars_eq_self _ hws
    have hbvm : bvMatchAt (upperOf b :: upperOf v :: w.map upperOf)
        = some (upperOf b :: upperOf v :: w.map upperOf) := by
      unfold bvMatchAt
      rw [if_pos]
      · rw [List.take_of_length_le (by simp [hwlen])]
      · refine ⟨?_, ?_, ?_⟩
        · apply decide_eq_true
          rw [show ((upperOf b :: upperOf v :: w.map upperOf).take
                (['b', 'v'] : List Char).length)
              = [upperOf b, upperOf v] from rfl,
            List.map_cons, List.map_cons, List.map_nil,
            lowerOf_upperOf, lowerOf_upperOf, hb, hv]
        · rw [show ((upperOf b :: upperOf v :: w.map upperOf).drop 2)
              = w.map upperOf from rfl]
          simp [hwlen]
        · rw [show ((upperOf b :: upperOf v :: w.map upperOf).drop 2)
              = w.map upperOf from rfl,
            List.take_of_length_le (by simp [hwlen]),
            List.all_map, List.all_eq_true]
          intro x hx
          have : isAlnumChar (upperOf x) = isAlnumChar x := isAlnumChar_upperOf x
          simp only [Function.comp_apply, this]
          exact List.all_eq_true.mp hwall x hx
    have hfind : findBV ("https://www.bilibili.com/video/".data
        ++ (upperOf b :: upperOf v :: w.map upperOf))
        = some (upperOf b :: upperOf v :: w.map upperOf) := by
      rw [findBV_append _ _ (by decide)]
      unfold findBV
      simp only [scanFirst, hbvm]
    have hupper : (upperOf b :: upperOf v :: w.map upperOf).map upperOf
        = upperOf b :: upperOf v :: w.map upperOf := by
      rw [List.map_cons, List.map_cons, upperOf_upperOf, upperOf_upperOf,
        List.map_map, show upperOf ∘ upperOf = upperOf from funext upperOf_upperOf]
    simp only [extractByPattern, htrim, hfind, Option.some.injEq, Prod.mk.injEq]
    exact ⟨by trivial, hupper⟩
  · obtain ⟨hbvn, htvn, hytn⟩ := extract_eq_youtube input vid hparse
    obtain ⟨hlen, hall⟩ := scanFirst_prop ytMatchAt_shape _ _ hytn
    have hurl : normalizeSourceUrl Source.youtube vid orig
        = "https://www.youtube.com/watch?v=".data ++ vid := by
      unfold normalizeSourceUrl
      rw [if_neg hhttp, if_neg (by decide), if_pos rfl]
    rw [hurl]
    have hws : ∀ c ∈ "https://www.youtube.com/watch?v=".data ++ vid,
        isJsWs c = false := by
      intro c hc
      rcases List.mem_append.mp hc with hcl | hcr
      · exact (by decide :
          ∀ x ∈ "https://www.youtube.com/watch?v=".data, isJsWs x = false) c hcl
      · exact isJsWs_eq_false_of_ytId c (List.all_eq_true.mp hall c hcr)
    have htrim := trimChars_eq_self _ hws
    have hbvU : findBV ("https://www.youtube.com/watch?v=".data ++ vid) = none := by
      rw [findBV_append _ _ (by decide)]
      exact findBV_none_short vid (by omega)
    have htvU : findTver ("https://www.youtube.com/watch?v=".data ++ vid) = none := by
      rw [findTver_append _ _ (by decide)]
      exact scanFirst_none_of_all tverMatchAt isYtIdChar tverMatchAt_none_of_ytId vid hall
    have hymatch : ytMatchAt ('v' :: '=' :: vid) = some vid := by
      unfold ytMatchAt
      rw [if_pos]
      · rw [show (('v' :: '=' :: vid).drop 2) = vid from rfl,
          List.take_of_length_le (by omega)]
      · refine ⟨?_, ?_, ?_⟩
        · apply decide_eq_true
          rw [show (('v' :: '=' :: vid).take (['v', '='] : List Char).length)
              = ['v', '='] from rfl]
          decide
        · rw [show (('v' :: '=' :: vid).drop 2) = vid from rfl]
          omega
        · rw [show (('v' :: '=' :: vid).drop 2) = vid from rfl,
            List.take_of_length_le (by omega)]
          exact hall
    have hytU : findYt ("https://www.youtube.com/watch?v=".data ++ vid)
        = some vid := by
      rw [show "https://www.youtube.com/watch?v=".data
          = "https://www.youtube.com/watch?".data ++ ['v', '='] from by decide,
        List.append_assoc]
      rw [findYt_append _ _ (by decide)]
      rw [show (['v', '='] ++ vid) = 'v' :: '=' :: vid from rfl]
      unfold findYt
      simp only [scanFirst, hymatch]
    simp only [extractByPattern, htrim, hbvU, htvU, hytU]

/-- C3 witness: the round trip applied at the concrete input
`"BV18KBJBeEmV"` with a non-URL original input. -/
theorem parseSource_roundTrip_witness :
    extractByPattern
        (normalizeSourceUrl Source.bilibili "BV18KBJBEEMV".data "BV18KBJBeEmV".data)
      = some (Source.bilibili, "BV18KBJBEEMV".data) :=
  parseSource_roundTrip "BV18KBJBeEmV".data "BV18KBJBeEmV".data Source.bilibili
    "BV18KBJBEEMV".data (by decide) (Or.inl rfl) (by decide) (by decide)

theorem tsClass_not_crlf (i : Nat) (c : Char) (h : tsClass i c = true) :
    c ≠ '\r' ∧ c ≠ '\n' := by
  unfold tsClass at h
  split_ifs at h
  · have hc : c = ':' := by simpa using h
    subst hc
    exact ⟨by decide, by decide⟩
  · have hc : c = ',' := by simpa using h
    subst hc
    exact ⟨by decide, by decide⟩
  · constructor
    · intro hc
      subst hc
      revert h
      decide
    · intro hc
      subst hc
      revert h
      decide

theorem tsShape_length (w : List Char) (h : tsShape w = true) : w.length = 12 := by
  unfold tsShape at h
  have h1 := (Bool.and_eq_true _ _).mp h |>.1
  simpa using h1

theorem tsShape_class (w : List Char) (h : tsShape w = true) :
    ∀ i, i < 12 → tsClass i (w.getD i ' ') = true := by
  unfold tsShape at h
  have h2 := (Bool.and_eq_true _ _).mp h |>.2
  rw [List.all_eq_true] at h2
  intro i hi
  exact h2 i (List.mem_range.mpr hi)

theorem tsShape_mem (w : List Char) (h : tsShape w = true) :
    ∀ c ∈ w, c ≠ '\r' ∧ c ≠ '\n' := by
  intro c hc
  obtain ⟨i, hi, hgi⟩ := List.mem_iff_getElem.mp hc
  have hlen := tsShape_length w h
  have hcl := tsShape_class w h i (by omega)
  rw [List.getD_eq_getElem w ' ' hi, hgi] at hcl
  exact tsClass_not_crlf i c hcl

theorem tsShape_false_of_mem {w : List Char} {c : Char} (hc : c ∈ w)
    (hbad : c = '\r' ∨ c = '\n') : tsShape w = false := by
  rw [Bool.eq_false_iff]
  intro hsh
  rcases hbad with rfl | rfl
  · exact (tsShape_mem w hsh _ hc).1 rfl
  · exact (tsShape_mem w hsh _ hc).2 rfl

theorem replaceAllCRLF_cons_ne (c : Char) (l : List Char) (hc : c ≠ '\r') :
    replaceAllCRLF (c :: l) = c :: replaceAllCRLF l := by
  cases l with
  | nil => rfl
  | cons c2 rest =>
    rw [replaceAllCRLF, if_neg (fun hand => hc hand.1)]

theorem replaceAllCRLF_append (w t : List Char) (hw : ∀ c ∈ w, c ≠ '\r') :
    replaceAllCRLF (w ++ t) = w ++ replaceAllCRLF t := by
  induction w with
  | nil => rfl
  | cons a w' ih =>
    rw [List.cons_append,
      replaceAllCRLF_cons_ne a _ (hw a (List.mem_cons_self a w')),
      ih (fun c hc => hw c (List.mem_cons_of_mem a hc))]
    rfl

theorem crlfFreePrefixLen_le (l : List Char) : crlfFreePrefixLen l ≤ l.length := by
  induction l using crlfFreePrefixLen.induct with
  | case1 => simp [crlfFreePrefixLen]
  | case2 c => simp [crlfFreePrefixLen]
  | case3 c1 c2 rest h => simp [crlfFreePrefixLen, h]
  | case4 c1 c2 rest h ih =>
    rw [crlfFreePrefixLen, if_neg h]
    simpa using ih

theorem replaceAllCRLF_of_no_crlf (l : List Char)
    (h : crlfFreePrefixLen l = l.length) : replaceAllCRLF l = l := by
  induction l using crlfFreePrefixLen.induct with
  | case1 => rfl
  | case2 c => rfl
  | case3 c1 c2 rest hcr =>
    rw [crlfFreePrefixLen, if_pos hcr] at h
    simp at h
  | case4 c1 c2 rest hcr ih =>
    rw [crlfFreePrefixLen, if_neg hcr] at h
    rw [replaceAllCRLF, if_neg hcr, ih (by simpa using h)]

theorem replaceAllCRLF_crlf_split (l : List Char)
    (h : crlfFreePrefixLen l < l.length) :
    l.drop (crlfFreePrefixLen l) = '\r' :: '\n' :: l.drop (crlfFreePrefixLen l + 2)
    ∧ replaceAllCRLF l
        = l.take (crlfFreePrefixLen l)
          ++ '\n' :: replaceAllCRLF (l.drop (crlfFreePrefixLen l + 2)) := by
  induction l using crlfFreePrefixLen.induct with
  | case1 => simp [crlfFreePrefixLen] at h
  | case2 c => simp [crlfFreePrefixLen] at h
  | case3 c1 c2 rest hcr =>
    obtain ⟨rfl, rfl⟩ := hcr
    have hk : crlfFreePrefixLen ('\r' :: '\n' :: rest) = 0 := by
      rw [crlfFreePrefixLen, if_pos ⟨rfl, rfl⟩]
    rw [hk]
    constructor
    · rfl
    · rw [replaceAllCRLF, if_pos ⟨rfl, rfl⟩]
      rfl
  | case4 c1 c2 rest hcr ih =>
    have hk : crlfFreePrefixLen (c1 :: c2 :: rest)
        = crlfFreePrefixLen (c2 :: rest) + 1 := by
      rw [crlfFreePrefixLen, if_neg hcr]
    rw [hk] at h ⊢
    have hlt : crlfFreePrefixLen (c2 :: rest) < (c2 :: rest).length := by
      simp only [List.length_cons] at h ⊢
      omega
    obtain ⟨ih1, ih2⟩ := ih hlt
    constructor
    · simpa using ih1
    · rw [replaceAllCRLF, if_neg hcr, ih2]
      rfl

theorem tsShape_take_replaceAllCRLF (l : List Char) :
    tsShape ((replaceAllCRLF l).take 12) = tsShape (l.take 12) := by
  by_cases h : crlfFreePrefixLen l < l.length
  · obtain ⟨h1, h2⟩ := replaceAllCRLF_crlf_split l h
    have hklen : (l.take (crlfFreePrefixLen l)).length = crlfFreePrefixLen l := by
      simp [List.length_take]
      omega
    by_cases h12 : 12 ≤ crlfFreePrefixLen l
    · rw [h2, List.take_append_eq_append_take, hklen]
      have hz : 12 - crlfFreePrefixLen l = 0 := by omega
      rw [hz, List.take_zero, List.append_nil, List.take_take]
      have hm : min 12 (crlfFreePrefixLen l) = 12 := by omega
      rw [hm]
    · have hlhs : tsShape ((replaceAllCRLF l).take 12) = false := by
        apply tsShape_false_of_mem (c := '\n') _ (Or.inr rfl)
        rw [h2, List.take_append_eq_append_take, hklen]
        apply List.mem_append_right
        have : 12 - crlfFreePrefixLen l = (12 - crlfFreePrefixLen l - 1) + 1 := by omega
        rw [this, List.take_succ_cons]
        exact List.mem_cons_self _ _
      have hrhs : tsShape (l.take 12) = false := by
        apply tsShape_false_of_mem (c := '\r') _ (Or.inl rfl)
        have hsplit : l = l.take (crlfFreePrefixLen l)
            ++ '\r' :: '\n' :: l.drop (crlfFreePrefixLen l + 2) := by
          conv_lhs => rw [← List.take_append_drop (crlfFreePrefixLen l) l]
          rw [h1]
        conv_lhs => rw [hsplit]
        rw [List.take_append_eq_append_take, hklen]
        apply List.mem_append_right
        have : 12 - crlfFreePrefixLen l = (12 - crlfFreePrefixLen l - 1) + 1 := by omega
        rw [this, List.take_succ_cons]
        exact List.mem_cons_self _ _
      rw [hlhs, hrhs]
  · have heq : crlfFreePrefixLen l = l.length := by
      have := crlfFreePrefixLen_le l
      omega
    rw [replaceAllCRLF_of_no_crlf l heq]

theorem rewriteTimestamps_cons_pos (c : Char) (rest : List Char)
    (h : tsShape ((c :: rest).take 12) = true) :
    rewriteTimestamps (c :: rest)
      = tsRewrite ((c :: rest).take 12) ++ rewriteTimestamps ((c :: rest).drop 12) := by
  rw [rewriteTimestamps]
  simp only [h, if_true]

theorem rewriteTimestamps_cons_neg (c : Char) (rest : List Char)
    (h : tsShape ((c :: rest).take 12) = false) :
    rewriteTimestamps (c :: rest) = c :: rewriteTimestamps rest := by
  rw [rewriteTimestamps]
  simp only [h, Bool.false_eq_true, if_false]

theorem rewriteTimestamps_append (w T : List Char) (hlen : w.length = 12)
    (hsh : tsShape w = true) :
    rewriteTimestamps (w ++ T) = tsRewrite w ++ rewriteTimestamps T := by
  cases w with
  | nil => simp at hlen
  | cons a w' =>
    have htake : (((a :: w') ++ T)).take 12 = a :: w' := by
      rw [List.take_append_eq_append_take]
      have h1 : (a :: w').take 12 = a :: w' := List.take_of_length_le (by omega)
      have h2 : 12 - (a :: w').length = 0 := by omega
      rw [h1, h2, List.take_zero, List.append_nil]
    have hdrop : (((a :: w') ++ T)).drop 12 = T := by
      rw [List.drop_append_eq_append_drop]
      have h1 : (a :: w').drop 12 = [] := List.drop_eq_nil_of_le (by omega)
      have h2 : 12 - (a :: w').length = 0 := by omega
      rw [h1, h2, List.drop_zero, List.nil_append]
    rw [List.cons_append] at htake hdrop ⊢
    rw [rewriteTimestamps_cons_pos a (w' ++ T) (by rw [htake]; exact hsh)]
    rw [htake, hdrop]

theorem rewriteTimestamps_nil : rewriteTimestamps [] = [] := by
  rw [rewriteTimestamps]

theorem specNormalize_nil : specNormalize [] = [] := by
  rw [specNormalize]

theorem specNormalize_one (c : Char) : specNormalize [c] = [c] := by
  rw [specNormalize]

theorem specNormalize_crlf (rest : List Char) :
    specNormalize ('\r' :: '\n' :: rest) = '\n' :: specNormalize rest := by
  rw [specNormalize, if_pos ⟨rfl, rfl⟩]

theorem specNormalize_window (c1 c2 : Char) (rest : List Char)
    (hcr : ¬(c1 = '\r' ∧ c2 = '\n'))
    (h : tsShape ((c1 :: c2 :: rest).take 12) = true) :
    specNormalize (c1 :: c2 :: rest)
      = tsRewrite ((c1 :: c2 :: rest).take 12)
        ++ specNormalize ((c1 :: c2 :: rest).drop 12) := by
  rw [specNormalize, if_neg hcr]
  simp only [h, if_true]

theorem specNormalize_other (c1 c2 : Char) (rest : List Char)
    (hcr : ¬(c1 = '\r' ∧ c2 = '\n'))
    (h : tsShape ((c1 :: c2 :: rest).take 12) = false) :
    specNormalize (c1 :: c2 :: rest) = c1 :: specNormalize (c2 :: rest) := by
  rw [specNormalize, if_neg hcr]
  simp only [h, Bool.false_eq_true, if_false]

theorem rewrite_replace_eq_specNormalize :
    ∀ l : List Char, rewriteTimestamps (replaceAllCRLF l) = specNormalize l := by
  suffices H : ∀ n, ∀ l : List Char, l.length ≤ n →
      rewriteTimestamps (replaceAllCRLF l) = specNormalize l by
    intro l
    exact H l.length l le_rfl
  intro n
  induction n with
  | zero =>
    intro l hl
    have : l = [] := List.eq_nil_of_length_eq_zero (by omega)
    subst this
    rw [show replaceAllCRLF [] = [] from rfl, rewriteTimestamps_nil, specNormalize_nil]
  | succ n ih =>
    intro l hl
    match l with
    | [] =>
      rw [show replaceAllCRLF [] = [] from rfl, rewriteTimestamps_nil, specNormalize_nil]
    | [c] =>
      have hsh : tsShape (([c] : List Char).take 12) = false := by
        simp [tsShape]
      rw [show replaceAllCRLF [c] = [c] from rfl,
        rewriteTimestamps_cons_neg _ _ hsh, rewriteTimestamps_nil, specNormalize_one]
    | c1 :: c2 :: rest =>
      by_cases hcr : c1 = '\r' ∧ c2 = '\n'
      · obtain ⟨rfl, rfl⟩ := hcr
        have h1 : replaceAllCRLF ('\r' :: '\n' :: rest) = '\n' :: replaceAllCRLF rest := by
          rw [replaceAllCRLF, if_pos ⟨rfl, rfl⟩]
        have hsh : tsShape (('\n' :: replaceAllCRLF rest).take 12) = false := by
          apply tsShape_false_of_mem (c := '\n') _ (Or.inr rfl)
          rw [show ('\n' :: replaceAllCRLF rest).take 12
              = '\n' :: (replaceAllCRLF rest).take 11 from rfl]
          exact List.mem_cons_self _ _
        rw [h1, rewriteTimestamps_cons_neg _ _ hsh, specNormalize_crlf,
          ih rest (by simp only [List.length_cons] at hl; omega)]
      · have h1 : replaceAllCRLF (c1 :: c2 :: rest) = c1 :: replaceAllCRLF (c2 :: rest) := by
          rw [replaceAllCRLF, if_neg hcr]
        by_cases hsh : tsShape ((c1 :: c2 :: rest).take 12) = true
        · have hwlen : ((c1 :: c2 :: rest).take 12).length = 12 :=
            tsShape_length _ hsh
          have h12 : 12 ≤ (c1 :: c2 :: rest).length := by
            rw [List.length_take] at hwlen
            omega
          have hnocr : ∀ c ∈ (c1 :: c2 :: rest).take 12, c ≠ '\r' :=
            fun c hc => (tsShape_mem _ hsh c hc).1
          have hsplitrep : replaceAllCRLF (c1 :: c2 :: rest)
              = (c1 :: c2 :: rest).take 12
                ++ replaceAllCRLF ((c1 :: c2 :: rest).drop 12) := by
            conv_lhs => rw [← List.take_append_drop 12 (c1 :: c2 :: rest)]
            rw [replaceAllCRLF_append _ _ hnocr]
          rw [hsplitrep,
            rewriteTimestamps_append _ _ hwlen hsh,
            ih ((c1 :: c2 :: rest).drop 12)
              (by simp only [List.length_drop, List.length_cons] at hl ⊢; omega),
            specNormalize_window c1 c2 rest hcr hsh]
        · have hsh' : tsShape ((c1 :: c2 :: rest).take 12) = false := by
            rw [Bool.eq_false_iff]
            exact hsh
          have hW := tsShape_take_replaceAllCRLF (c1 :: c2 :: rest)
          rw [h1] at hW
          rw [h1, rewriteTimestamps_cons_neg _ _ (hW.trans hsh'),
            ih (c2 :: rest) (by simp only [List.length_cons] at hl ⊢; omega),
            specNormalize_other c1 c2 rest hcr hsh']

/-- C1.  For every string `srt`, `srtToVtt srt` is `"WEBVTT\n\n"` followed by
the normalisation of `srt` in which every `"\r\n"` becomes `"\n"`, every
timestamp `HH:MM:SS,mmm` (two digits, colon, two digits, colon, two digits,
comma, three digits) becomes `HH:MM:SS.mmm`, and nothing else is changed
(`specNormalize` copies every other character verbatim). -/
theorem srtToVtt_spec (srt : List Char) :
    srtToVtt srt = "WEBVTT\n\n".data ++ specNormalize srt := by
  unfold srtToVtt
  rw [rewrite_replace_eq_specNormalize]

theorem stopsAt_of_le {α : Type} (factory : Nat → Except PipelineError α)
    (o : RetryOptions) {n : Nat} (h : o.maxRetries ≤ n) : stopsAt factory o n = true := by
  unfold stopsAt
  cases factory n with
  | ok v => rfl
  | error e => simp [h]

theorem specStopGo_spec {α : Type} (factory : Nat → Except PipelineError α)
    (o : RetryOptions) :
    ∀ fuel start, o.maxRetries ≤ start + fuel →
      stopsAt factory o (specStopGo factory o fuel start) = true
      ∧ start ≤ specStopGo factory o fuel start
      ∧ ∀ m, start ≤ m → m < specStopGo factory o fuel start →
          stopsAt factory o m = false := by
  intro fuel
  induction fuel with
  | zero =>
    intro start h
    have he : specStopGo factory o 0 start = start := rfl
    rw [he]
    exact ⟨stopsAt_of_le _ _ (by omega), le_rfl, fun m h1 h2 => by omega⟩
  | succ n ih =>
    intro start h
    by_cases hs : stopsAt factory o start = true
    · refine ⟨?_, ?_, ?_⟩
      · simp only [specStopGo, hs, if_true]
      · simp only [specStopGo, hs, if_true]
        exact le_rfl
      · intro m h1 h2
        simp only [specStopGo, hs, if_true] at h2
        omega
    · have hs' : stopsAt factory o start = false := by
        simp only [Bool.not_eq_true] at hs
        exact hs
      simp only [specStopGo, hs', Bool.false_eq_true, if_false]
      obtain ⟨h1, h2, h3⟩ := ih (start + 1) (by omega)
      refine ⟨h1, by omega, ?_⟩
      intro m hm1 hm2
      rcases Nat.eq_or_lt_of_le hm1 with rfl | hlt
      · exact hs'
      · exact h3 m (by omega) hm2

theorem retryDelay_eq_specDelay (o : RetryOptions) (rand : Nat → ℚ) (n : Nat) :
    retryDelayMs o (rand n) n = specDelay o rand n := rfl

theorem retryBackoff_eq_from {α : Type} (factory : Nat → Except PipelineError α)
    (o : RetryOptions) (rand : Nat → ℚ) (k : Nat)
    (hk : stopsAt factory o k = true)
    (hmin : ∀ m, m < k → stopsAt factory o m = false) :
    ∀ d j, j ≤ k → k - j = d →
      retryBackoff factory o rand j
        = (factory k, (List.range' j (k - j)).map (fun n => specDelay o rand n)) := by
  intro d
  induction d with
  | zero =>
    intro j hj hd
    have hjk : j = k := by omega
    subst hjk
    rw [retryBackoff]
    split
    · rename_i v heq
      simp [heq]
    · rename_i e heq
      have hcond : e.retryable = false ∨ o.maxRetries ≤ j := by
        have hk2 := hk
        rw [stopsAt, heq] at hk2
        rcases Bool.or_eq_true_iff.mp hk2 with h1 | h2
        · exact Or.inl (by simpa using h1)
        · exact Or.inr (by simpa using h2)
      rw [dif_pos hcond]
      simp [heq]
  | succ n ih =>
    intro j hj hd
    have hjk : j < k := by omega
    have hstop := hmin j hjk
    rw [retryBackoff]
    split
    · rename_i v heq
      exfalso
      rw [stopsAt, heq] at hstop
      exact Bool.true_eq_false.mp hstop
    · rename_i e heq
      rw [stopsAt, heq] at hstop
      have hretry : e.retryable = true ∧ ¬ o.maxRetries ≤ j := by
        rcases Bool.or_eq_false_iff.mp hstop with ⟨h1, h2⟩
        constructor
        · simpa using h1
        · simpa using h2
      have hcond : ¬ (e.retryable = false ∨ o.maxRetries ≤ j) := by
        rintro (h1 | h2)
        · rw [hretry.1] at h1
          exact Bool.true_eq_false.mp h1
        · exact hretry.2 h2
      rw [dif_neg hcond]
      have hrec := ih (j + 1) (by omega) (by omega)
      have hrange : List.range' j (k - j) = j :: List.range' (j + 1) (k - (j + 1)) := by
        have h1 : k - j = (k - (j + 1)) + 1 := by omega
        rw [h1, List.range'_succ]
      rw [hrange]
      simp only [hrec, List.map_cons]
      exact rfl

/-- C2 (as amended).  `retryBackoff` returns the outcome of the factory's
invocation at the first attempt `k` at which the loop stops; every attempt
before `k` failed with a retryable error inside the retry budget (so a
non-retryable error or a success is returned immediately and the factory is
re-invoked after a failure exactly when the error is retryable and the budget
is not exhausted); and the delay slept before 0-indexed retry `n` is
`min(baseDelayMs * 2^n, maxDelayMs ?? Number.MAX_SAFE_INTEGER)`, multiplied by
the jitter factor `0.75 + rand/2 ∈ [0.75, 1.25)` unless `jitter === false`,
floored, with a minimum of 1 ms. -/
theorem retryBackoff_spec {α : Type} (factory : Nat → Except PipelineError α)
    (o : RetryOptions) (rand : Nat → ℚ) :
    retryBackoffRun factory o rand
      = (factory (specStop factory o),
         (List.range (specStop factory o)).map (fun n => specDelay o rand n))
    ∧ (∀ m, m < specStop factory o →
        ∃ e, factory m = .error e ∧ e.retryable = true ∧ m < o.maxRetries)
    ∧ stopsAt factory o (specStop factory o) = true := by
  obtain ⟨h1, -, h3⟩ := specStopGo_spec factory o (o.maxRetries + 1) 0 (by omega)
  have hmin : ∀ m, m < specStop factory o → stopsAt factory o m = false :=
    fun m hm => h3 m (Nat.zero_le m) hm
  refine ⟨?_, ?_, h1⟩
  · have h := retryBackoff_eq_from factory o rand (specStop factory o) h1 hmin
      (specStop factory o) 0 (Nat.zero_le _) (by omega)
    rw [retryBackoffRun, h, List.range_eq_range']
    simp
  · intro m hm
    have hsf := hmin m hm
    cases hfm : factory m with
    | ok v =>
      exfalso
      rw [stopsAt, hfm] at hsf
      exact Bool.true_eq_false.mp hsf
    | error e =>
      rw [stopsAt, hfm] at hsf
      rcases Bool.or_eq_false_iff.mp hsf with ⟨hr, hb⟩
      refine ⟨e, rfl, by simpa using hr, ?_⟩
      have : ¬ o.maxRetries ≤ m := by simpa using hb
      omega

/-- C2 counterexample to the claim as stated: with `baseDelayMs = 2^53` (and
no `maxDelayMs`, jitter disabled) the source sleeps
`min(2^53, Number.MAX_SAFE_INTEGER) = 9007199254740991` ms before the single
retry, while the claim's `min(baseDelayMs * 2^0, +infinity) = 9007199254740992`
differs: the code caps the uncapped branch at `Number.MAX_SAFE_INTEGER`. -/
theorem retryBackoff_cap_counterexample :
    (retryBackoffRun (α := Unit) (fun _ => .error ⟨"fetch_metadata", "boom", true⟩)
        ⟨9007199254740992, some false, none, 1⟩ (fun _ => 0)).2
      = [(9007199254740991 : ℤ)]
    ∧ (List.range 1).map
        (claimDelay ⟨9007199254740992, some false, none, 1⟩ (fun _ => 0))
      = [(9007199254740992 : ℤ)]
    ∧ (9007199254740991 : ℤ) ≠ (9007199254740992 : ℤ) := by
  refine ⟨?_, ?_, by decide⟩
  · rw [retryBackoffRun, retryBackoff, retryBackoff]
    norm_num [retryDelayMs, maxSafeInteger, withJitter]
  · norm_num [claimDelay, List.range_succ]

/-- C4 (as amended).  Submitting `"BV18KBJBeEmV"` creates a project row with
`source = bilibili` and `sourceVideoId = "BV18KBJBEEMV"` - the upper-cased
match, not the mixed-case input (`extractByPattern` upper-cases the whole
bilibili match); the original mixed-case input is preserved only in
`originalInput`. -/
theorem submitProject_bilibili_spec (st : Store) (t : Int) (pid tid : Nat)
    (hint : Option String)
    (h : ¬ ∃ p ∈ st.projects,
        p.source = Source.bilibili ∧ p.sourceVideoId = "BV18KBJBEEMV".data) :
    (projectService.submitProject st t pid tid "BV18KBJBeEmV".data hint).1 = .ok (pid, tid)
    ∧ ∃ pr, (projectService.submitProject st t pid tid "BV18KBJBeEmV".data hint).2.projects
        = st.projects ++ [pr]
      ∧ pr.source = Source.bilibili
      ∧ pr.sourceVideoId = "BV18KBJBEEMV".data
      ∧ pr.originalInput = "BV18KBJBeEmV".data
      ∧ pr.status = "queued" := by
  have hparse : parseSourceInput "BV18KBJBeEmV".data
      = .ok (Source.bilibili, "BV18KBJBEEMV".data) := by rfl
  have hc : (st.projects.any fun p =>
      decide (p.source = Source.bilibili ∧ p.sourceVideoId = "BV18KBJBEEMV".data)) = false := by
    rw [Bool.eq_false_iff]
    intro hcon
    rw [List.any_eq_true] at hcon
    obtain ⟨p, hp, hpv⟩ := hcon
    simp only [decide_eq_true_eq] at hpv
    exact h ⟨p, hp, hpv⟩
  simp only [projectService.submitProject, hparse, repository.submitProject, hc]
  exact ⟨rfl, _, rfl, rfl, rfl, rfl, rfl⟩

/-- C4 counterexample to the claim as stated: the stored `sourceVideoId` is
the upper-cased `"BV18KBJBEEMV"`, which differs from the mixed-case input
`"BV18KBJBeEmV"` the claim demands character for character. -/
theorem submitProject_case_counterexample :
    ((projectService.submitProject emptyStore 0 1 2 "BV18KBJBeEmV".data none).2.projects.map
        (fun p => (p.source, p.sourceVideoId)))
      = [(Source.bilibili, "BV18KBJBEEMV".data)]
    ∧ "BV18KBJBEEMV".data ≠ "BV18KBJBeEmV".data := by
  exact ⟨by rfl, by decide⟩

/-- C4 witness: the amended theorem applied at the empty store. -/
theorem submitProject_bilibili_spec_witness :
    (projectService.submitProject emptyStore 0 1 2 "BV18KBJBeEmV".data none).1
      = .ok (1, 2) := by
  exact (submitProject_bilibili_spec emptyStore 0 1 2 none
    (by rintro ⟨p, hp, -⟩; simp [emptyStore] at hp)).1

end Grill
